import Mathlib

/-!
# Verification of the MapServer OGR provider adapter (mapogr.cpp)

Shallow embedding of the geometry-coercion, filter-translation, tiled-cursor
and style-decoding logic of `mapogr.cpp`, together with proofs settling the
frozen claims about it.  Coordinates (C `double`) are modelled as rationals;
external handles (OGR geometries, features, style parts) are modelled as the
data the code reads out of them.
-/

namespace MapOGR

/-- A 2D point (C `pointObj`, x/y only; the optional z/m members play no role
in any claim). -/
structure Point where
  x : ℚ
  y : ℚ
deriving DecidableEq

/-- C `rectObj`. -/
structure rectObj where
  minx : ℚ
  miny : ℚ
  maxx : ℚ
  maxy : ℚ
deriving DecidableEq

/-- `shapeObj.type` values (`MS_SHAPE_NULL/POINT/LINE/POLYGON`). -/
inductive ShapeType where
  | null
  | point
  | line
  | polygon
deriving DecidableEq

/-- C `lineObj`: one ring / part, an ordered point sequence. -/
structure lineObj where
  point : List Point
deriving DecidableEq

/-- C `shapeObj`: type, parts and the accumulated bounding rectangle.
(The attribute/index members do not participate in any claim.) -/
structure shapeObj where
  type : ShapeType
  line : List lineObj
  bounds : rectObj
deriving DecidableEq

/-- A freshly initialized shape, as produced by `msInitShape`/`msFreeShape`
before conversion (type `MS_SHAPE_NULL`, no lines). -/
def freshShape : shapeObj :=
  { type := .null, line := [], bounds := ⟨0, 0, 0, 0⟩ }

/-- One bounds-relaxation step: the four `if (d < bounds->min...) ...`
comparisons shared by `ogrPointsAddPoint` (mapogr.cpp:96-99) and the
`ogrGeomLine` point loop (mapogr.cpp:327-330). -/
def relaxBounds (r : rectObj) (p : Point) : rectObj :=
  { minx := if p.x < r.minx then p.x else r.minx
    miny := if p.y < r.miny then p.y else r.miny
    maxx := if p.x > r.maxx then p.x else r.maxx
    maxy := if p.y > r.maxy then p.y else r.maxy }

/-- Bounds initialization from the very first visited point:
`minx = maxx = dX; miny = maxy = dY` (mapogr.cpp:93-94, 324-325). -/
def initBounds (p : Point) : rectObj :=
  ⟨p.x, p.y, p.x, p.y⟩

/-- Relax the bounds with every point of a list, in order. -/
def relaxBoundsAll (ps : List Point) (r : rectObj) : rectObj :=
  ps.foldl relaxBounds r

/-- The container geometry kinds that `ogrGeomPoints`/`ogrGeomLine` recurse
into (`wkbGeometryCollection`, `wkbMultiLineString`, `wkbMultiPolygon`,
`wkbPolygon`). -/
inductive ContainerKind where
  | geometryCollection
  | multiLineString
  | multiPolygon
  | polygon
deriving DecidableEq

mutual
/-- An OGR geometry as read through the C API.  `lineString` also stands for
`OGRLinearRing` (whose `OGR_G_GetGeometryType` reports `wkbLineString`, cf.
the merged `wkbLineString`/`wkbLinearRing` branches in the source).
`unsupported` is any other subtype; it carries the `OGR_G_GetGeometryName`
result used in error messages. -/
inductive OGRGeometry where
  | point (p : Point)
  | multiPoint (ps : List Point)
  | lineString (ps : List Point)
  | container (k : ContainerKind) (children : GeomForest)
  | unsupported (name : String)

/-- The ordered children of a container geometry
(`OGR_G_GetGeometryRef(hGeom, 0..count-1)`). -/
inductive GeomForest where
  | nil
  | cons (g : OGRGeometry) (rest : GeomForest)
end

/-- `ogrPointsAddPoint` (mapogr.cpp:85-109): append a point to a line,
initializing the shape bounds when the line is empty and is line 0,
otherwise relaxing them. -/
def ogrPointsAddPoint (line : lineObj) (dX dY : ℚ) (lineindex : Nat)
    (bounds : rectObj) : lineObj × rectObj :=
  let bounds :=
    if line.point = [] ∧ lineindex = 0 then initBounds ⟨dX, dY⟩
    else relaxBounds bounds ⟨dX, dY⟩
  (⟨line.point ++ [⟨dX, dY⟩]⟩, bounds)

/-- The leaf part of `ogrGeomPoints` (mapogr.cpp:161-238): ensure the shape
has a line, append every leaf point to the last line through
`ogrPointsAddPoint`, and set the shape type to `MS_SHAPE_POINT`. -/
def ogrGeomPointsLeaf (pts : List Point) (s : shapeObj) : shapeObj :=
  let s := if s.line = [] then { s with line := [⟨[]⟩] } else s
  let lineindex := s.line.length - 1
  let start : lineObj × rectObj := ((s.line.getLast?).getD ⟨[]⟩, s.bounds)
  let res := pts.foldl
    (fun acc p => ogrPointsAddPoint acc.1 p.x p.y lineindex acc.2) start
  { s with line := s.line.dropLast ++ [res.1], bounds := res.2,
           type := .point }

mutual
/-- `ogrGeomPoints` (mapogr.cpp:114-239): recursive point extraction.
Containers recurse over children; point, multipoint and linestring leaves
append their points; any other subtype is a fatal error naming it. -/
def ogrGeomPoints (g : OGRGeometry) (outshp : shapeObj) :
    shapeObj × Option String :=
  match g with
  | .container _ cs => ogrGeomPointsForest cs outshp
  | .point p => (ogrGeomPointsLeaf [p] outshp, none)
  | .multiPoint ps => (ogrGeomPointsLeaf ps outshp, none)
  | .lineString ps => (ogrGeomPointsLeaf ps outshp, none)
  | .unsupported nm =>
      (outshp, some ("OGRGeometry type `" ++ nm ++ "' not supported yet."))

/-- Recursion of `ogrGeomPoints` over a container's children, aborting at the
first failing child (mapogr.cpp:134-138). -/
def ogrGeomPointsForest (cs : GeomForest) (outshp : shapeObj) :
    shapeObj × Option String :=
  match cs with
  | .nil => (outshp, none)
  | .cons g rest =>
      match ogrGeomPoints g outshp with
      | (s, none) => ogrGeomPointsForest rest s
      | (s, some e) => (s, some e)
end

mutual
/-- `ogrGeomLine` (mapogr.cpp:248-357): recursive line/ring extraction.
A polygon container seeds the shape type to Polygon if still unset; point
leaves are dropped; linestrings of fewer than 2 points are dropped; a valid
linestring becomes one new line, optionally closed (`bCloseRings`), its
points relaxing the shape bounds (initializing them at the first point when
the shape still has no lines). -/
def ogrGeomLine (g : OGRGeometry) (outshp : shapeObj) (bCloseRings : Bool) :
    shapeObj × Option String :=
  match g with
  | .container k cs =>
      let outshp :=
        if k = .polygon ∧ outshp.type = .null then
          { outshp with type := .polygon }
        else outshp
      ogrGeomLineForest cs outshp bCloseRings
  | .point _ => (outshp, none)
  | .multiPoint _ => (outshp, none)
  | .lineString ps =>
      if ps.length < 2 then (outshp, none)
      else
        let outshp :=
          if outshp.type = .null then { outshp with type := .line } else outshp
        let bounds :=
          match outshp.line, ps with
          | [], p :: rest => relaxBoundsAll rest (initBounds p)
          | _, _ => relaxBoundsAll ps outshp.bounds
        let pts :=
          match ps.head?, ps.getLast? with
          | some pf, some pl =>
              if bCloseRings ∧ (pl.x ≠ pf.x ∨ pl.y ≠ pf.y) then ps ++ [pf]
              else ps
          | _, _ => ps
        ({ outshp with line := outshp.line ++ [⟨pts⟩], bounds := bounds },
         none)
  | .unsupported nm =>
      (outshp, some ("OGRGeometry type `" ++ nm ++ "' not supported."))

/-- Recursion of `ogrGeomLine` over a container's children, aborting at the
first failing child (mapogr.cpp:268-272). -/
def ogrGeomLineForest (cs : GeomForest) (outshp : shapeObj)
    (bCloseRings : Bool) : shapeObj × Option String :=
  match cs with
  | .nil => (outshp, none)
  | .cons g rest =>
      match ogrGeomLine g outshp bCloseRings with
      | (s, none) => ogrGeomLineForest rest s bCloseRings
      | (s, some e) => (s, some e)
end

/-- The layer types distinguished by `ogrConvertGeometry`
(`MS_LAYER_POINT/LINE/POLYGON/CHART/QUERY`; `other` covers the remaining
`MS_LAYER_TYPE` values handled by the default branch). -/
inductive LayerType where
  | point
  | line
  | polygon
  | chart
  | query
  | other
deriving DecidableEq

/-- `ogrConvertGeometry` (mapogr.cpp:390-462): dispatch on the layer type,
then force the shape type to Null when the flattened result is incompatible
with the layer.  A missing geometry is success-with-no-shape. -/
def ogrConvertGeometry (hGeom : Option OGRGeometry) (outshp : shapeObj)
    (layertype : LayerType) : shapeObj × Option String :=
  match hGeom with
  | none => (outshp, none)
  | some g =>
    match layertype with
    | .point => ogrGeomPoints g outshp
    | .line =>
        let r := ogrGeomLine g outshp false
        (if r.1.type ≠ .line ∧ r.1.type ≠ .polygon then
           { r.1 with type := .null }
         else r.1, r.2)
    | .polygon =>
        let r := ogrGeomLine g outshp true
        (if r.1.type ≠ .polygon then { r.1 with type := .null } else r.1,
         r.2)
    | .chart | .query =>
        match g with
        | .point _ => ogrGeomPoints g outshp
        | .multiPoint _ => ogrGeomPoints g outshp
        | _ => ogrGeomLine g outshp false
    | .other => (outshp, some "Unknown or unsupported layer type.")

/-! ## Shape fetching (`msOGRFileNextShape` / `msOGRFileGetShape`) -/

/-- Result of a fetch operation: `MS_SUCCESS` with the shape, `MS_DONE`, or
`MS_FAILURE` with the message passed to `msSetError`. -/
inductive FetchStatus where
  | success (shape : shapeObj)
  | done
  | failure (msg : String)
deriving DecidableEq

/-- `msOGRFileNextShape` (mapogr.cpp:1856-1933), modelled over the remaining
feature stream of the active OGR layer (each feature carries its possibly
missing geometry; `layer->numitems = 0`, so attribute extraction is a no-op,
and the back end reports no read error at exhaustion).  Features whose
converted shape is Null are skipped; a conversion error is a failure;
exhaustion is `MS_DONE`. -/
def msOGRFileNextShape (layertype : LayerType) :
    List (Option OGRGeometry) → FetchStatus
  | [] => .done
  | f :: rest =>
      let r := ogrConvertGeometry f freshShape layertype
      match r.2 with
      | some msg => .failure msg
      | none =>
          if r.1.type = .null then msOGRFileNextShape layertype rest
          else .success r.1

/-- `msOGRFileGetShape` (mapogr.cpp:1942-2046), modelled over the layer's
feature table (fid, geometry) with the read cursor in its reset state.
`record_is_fid` selects `OGR_L_GetFeature` by fid; otherwise the record is a
resultset offset reached by sequential reads.  A shape whose converted type
is Null is an explicit failure here (mapogr.cpp:2007-2013). -/
def msOGRFileGetShape (layertype : LayerType)
    (features : List (Int × Option OGRGeometry)) (record : Int)
    (record_is_fid : Bool) : FetchStatus :=
  let hFeature? :=
    if record_is_fid then (features.find? (fun f => f.1 = record)).map (·.2)
    else if h : 0 ≤ record ∧ record.toNat < features.length then
      some (features[record.toNat].2)
    else none
  match hFeature? with
  | none => .failure "GetFeature failed"
  | some f =>
      let r := ogrConvertGeometry f freshShape layertype
      match r.2 with
      | some msg => .failure msg
      | none =>
          if r.1.type = .null then
            .failure "Requested feature is incompatible with layer type"
          else .success r.1

/-! ## Tiled cursor (`msOGRFileReadTile`) -/

/-- One record of the tile index dataset: its row id (`OGR_F_GetFID`, which
becomes the tile id) and whether `msOGRFileOpen` succeeds on the sub-dataset
named by its tile-item field. -/
structure TileRecord where
  fid : Int
  opensOK : Bool
deriving DecidableEq

/-- Result of `msOGRFileReadTile`: the newly active tile id together with
the index records still ahead of the sequential cursor, or `MS_DONE`, or
`MS_FAILURE`. -/
inductive ReadTileStatus where
  | success (tileId : Int) (remaining : List TileRecord)
  | done
  | failure
deriving DecidableEq

/-- The sequential branch of `msOGRFileReadTile` (`targetTile < 0`,
mapogr.cpp:2092-2133 with `IGNORE_MISSING_DATA` undefined): fetch the next
index record; at exhaustion return `MS_DONE` for `targetTile == -1` and
`MS_FAILURE` otherwise; when the open of the named sub-dataset fails, skip
to the next record (`goto NextFile`) only when `targetTile == -1`. -/
def msOGRFileReadTileSeq : List TileRecord → Int → ReadTileStatus
  | [], targetTile => if targetTile = -1 then .done else .failure
  | r :: rest, targetTile =>
      if r.opensOK then .success r.fid rest
      else if targetTile = -1 then msOGRFileReadTileSeq rest targetTile
      else .failure

/-- `msOGRFileReadTile` (mapogr.cpp:2060-2155) over the index records ahead
of the cursor.  A non-negative `targetTile` is a random access
(`OGR_L_GetFeature`, leaving the sequential cursor alone) whose failure to
fetch or open is fatal.  The re-applied spatial filter and item-info refresh
on the opened tile are external collaborators and always succeed here. -/
def msOGRFileReadTile (index : List TileRecord) (targetTile : Int) :
    ReadTileStatus :=
  if targetTile < 0 then msOGRFileReadTileSeq index targetTile
  else
    match index.find? (fun r => r.fid = targetTile) with
    | none => .failure
    | some r => if r.opensOK then .success r.fid index else .failure

/-! ## Style decoding (`msOGRUpdateStyle` and helpers) -/

/-- One decoded style part, as read back through `OGR_ST_GetType` and
`OGR_ST_GetParamNum(..Priority..)`.  For a Brush, `isInvisibleFill` records
whether its id names the `ogr-brush-1` invisible fill (mapogr.cpp:3321), in
which case `msOGRUpdateStyleParseBrush` does not set `bIsBrush`. -/
inductive StylePart where
  | pen (priority : Option Int)
  | brush (priority : Option Int) (isInvisibleFill : Bool)
  | symbol (priority : Option Int)
  | label
deriving DecidableEq

/-- The counting loop of `msOGRUpdateStyleCheckPenBrushOnly`
(mapogr.cpp:2813-2842) with the running pen/brush counts. -/
def checkPenBrushOnlyLoop : List StylePart → Nat → Nat → Bool
  | [], countPen, countBrush => countPen == 1 && countBrush == 1
  | .pen pri :: rest, countPen, countBrush =>
      if pri.isSome then false
      else checkPenBrushOnlyLoop rest (countPen + 1) countBrush
  | .brush pri _ :: rest, countPen, countBrush =>
      if pri.isSome then false
      else checkPenBrushOnlyLoop rest countPen (countBrush + 1)
  | .symbol _ :: _, _, _ => false
  | .label :: rest, countPen, countBrush =>
      checkPenBrushOnlyLoop rest countPen countBrush

/-- `msOGRUpdateStyleCheckPenBrushOnly` (mapogr.cpp:2807-2843): legacy
two-slot detection. -/
def msOGRUpdateStyleCheckPenBrushOnly (parts : List StylePart) : Bool :=
  checkPenBrushOnlyLoop parts 0 0

/-- C `INT_MIN`, the sentinel priority given to parts with no explicit
priority (mapogr.cpp:2894). -/
def INT_MIN : Int := -(2 ^ 31)

/-- `msMaybeAllocateClassStyle`: grow the style slot list until index `n`
exists. -/
def ensureSlot (slots : List (List Nat)) (n : Nat) : List (List Nat) :=
  slots ++ List.replicate (n + 1 - slots.length) []

/-- Record that the part with discovery index `i` was parsed into style slot
`n` (each slot keeps its writers in write order). -/
def writeSlot (slots : List (List Nat)) (n : Nat) (i : Nat) :
    List (List Nat) :=
  let s := ensureSlot slots n
  s.set n (s.getD n [] ++ [i])

/-- Accumulator of the part loop of `msOGRUpdateStyle`: the style slots (as
writer lists), the `bIsBrush` flag, and the `pasSortStruct` array of
(explicit priority or `INT_MIN`, apparition index) pairs. -/
structure StyleAccum where
  slots : List (List Nat)
  bIsBrush : Bool
  sortStructs : List (Int × Nat)
deriving DecidableEq

/-- In general (non-legacy) mode, memorize the part's priority and
apparition index (mapogr.cpp:2967-2974). -/
def pushSortStruct (penBrushOnly : Bool) (acc : StyleAccum) (key : Int) :
    StyleAccum :=
  if penBrushOnly then acc
  else
    { acc with
      sortStructs := acc.sortStructs ++ [(key, acc.sortStructs.length)] }

/-- The part loop of `msOGRUpdateStyle` (mapogr.cpp:2888-2978).  `i` is the
discovery index of the first part still to process.  Slot selection: in
legacy mode a Pen goes to slot 1 when `bIsBrush` is set or the layer is a
Polygon layer and to slot 0 otherwise (mapogr.cpp:2919-2929), a Brush goes
to slot 0 (mapogr.cpp:2942); in general mode every Pen/Brush/Symbol appends
a new slot at `c->numstyles`.  Label parts populate the class label, not a
style slot. -/
def msOGRUpdateStyleLoop (layertype : LayerType) (penBrushOnly : Bool) :
    List StylePart → Nat → StyleAccum → StyleAccum
  | [], _, acc => acc
  | .label :: rest, i, acc =>
      msOGRUpdateStyleLoop layertype penBrushOnly rest (i + 1) acc
  | .pen pri :: rest, i, acc =>
      let nIndex :=
        if penBrushOnly then
          if acc.bIsBrush ∨ layertype = .polygon then 1 else 0
        else acc.slots.length
      let acc := { acc with slots := writeSlot acc.slots nIndex i }
      let acc := pushSortStruct penBrushOnly acc (pri.getD INT_MIN)
      msOGRUpdateStyleLoop layertype penBrushOnly rest (i + 1) acc
  | .brush pri invisible :: rest, i, acc =>
      let nIndex := if penBrushOnly then 0 else acc.slots.length
      let acc :=
        { acc with
          slots := writeSlot acc.slots nIndex i
          bIsBrush := if invisible then acc.bIsBrush else true }
      let acc := pushSortStruct penBrushOnly acc (pri.getD INT_MIN)
      msOGRUpdateStyleLoop layertype penBrushOnly rest (i + 1) acc
  | .symbol pri :: rest, i, acc =>
      let nIndex := acc.slots.length
      let acc := { acc with slots := writeSlot acc.slots nIndex i }
      let acc := pushSortStruct penBrushOnly acc (pri.getD INT_MIN)
      msOGRUpdateStyleLoop layertype penBrushOnly rest (i + 1) acc

/-- The order decided by `msOGRUpdateStyleSortFct` (mapogr.cpp:2859-2871):
priority first, apparition index second.  The comparator never reports two
distinct entries as equal (apparition indices are distinct), so `qsort`
produces exactly the lexicographic order modelled here. -/
def styleSortLe (a b : Int × Nat) : Prop :=
  a.1 < b.1 ∨ (a.1 = b.1 ∧ a.2 ≤ b.2)

instance : DecidableRel styleSortLe := fun a b => by
  unfold styleSortLe; infer_instance

instance : IsTotal (Int × Nat) styleSortLe where
  total a b := by
    rcases lt_trichotomy a.1 b.1 with h | h | h
    · exact Or.inl (Or.inl h)
    · rcases Nat.le_total a.2 b.2 with h2 | h2
      · exact Or.inl (Or.inr ⟨h, h2⟩)
      · exact Or.inr (Or.inr ⟨h.symm, h2⟩)
    · exact Or.inr (Or.inl h)

instance : IsTrans (Int × Nat) styleSortLe where
  trans a b c hab hbc := by
    rcases hab with h1 | ⟨e1, l1⟩
    · rcases hbc with h2 | ⟨e2, _⟩
      · exact Or.inl (h1.trans h2)
      · exact Or.inl (e2 ▸ h1)
    · rcases hbc with h2 | ⟨e2, l2⟩
      · exact Or.inl (e1 ▸ h2)
      · exact Or.inr ⟨e1.trans e2, l1.trans l2⟩

/-- `msOGRUpdateStyle` (mapogr.cpp:2873-2997) restricted to what it does to
the class's style slots, starting from a fresh class (`c->numstyles == 0`).
Each slot is reported as the list of discovery indices of the parts written
into it.  In general mode with more than one sorted part, the slots are
reordered by the sorted `pasSortStruct` (mapogr.cpp:2980-2992). -/
def msOGRUpdateStyle (layertype : LayerType) (parts : List StylePart) :
    List (List Nat) :=
  let penBrushOnly := msOGRUpdateStyleCheckPenBrushOnly parts
  let acc := msOGRUpdateStyleLoop layertype penBrushOnly parts 0 ⟨[], false, []⟩
  if 1 < acc.sortStructs.length ∧ ¬penBrushOnly then
    (List.insertionSort styleSortLe acc.sortStructs).map
      (fun pr => acc.slots.getD pr.2 [])
  else acc.slots

/-! ## Filter translation (`msOGRTranslateMsExpressionToOGRSQL`) -/

/-- The expression tokens the translator looks at (`MS_TOKEN_*` plus the
single-character tokens `(`, `)` and `,`).  `otherToken` is any token the
translator does not recognize (its default branch). -/
inductive Token where
  | literalNumber (v : ℚ)
  | literalString (s : String)
  | literalShape (shp : shapeObj)
  | literalBoolean (v : ℚ)
  | bindingDouble (item : String)
  | bindingInteger (item : String)
  | bindingString (item : String)
  | bindingShape
  | comparisonIntersects
  | comparisonEq
  | comparisonNe
  | comparisonGt
  | comparisonGe
  | comparisonLt
  | comparisonLe
  | comparisonRe
  | comparisonIre
  | logicalAnd
  | logicalOr
  | logicalNot
  | openParen
  | closeParen
  | comma
  | otherToken (code : Int)
deriving DecidableEq

/-- Modelled from the spec: `msExpressionTokenToString`, the host-side
rendering of pass-through operator tokens, lives outside this file's source
(maputil.c); the spec only requires these tokens to be "copied through
verbatim".  No claim depends on the precise strings. -/
def msExpressionTokenToString : Token → String
  | .comparisonEq => " = "
  | .comparisonNe => " != "
  | .comparisonGt => " > "
  | .comparisonGe => " >= "
  | .comparisonLt => " < "
  | .comparisonLe => " <= "
  | .logicalAnd => " AND "
  | .logicalOr => " OR "
  | .logicalNot => " NOT "
  | .openParen => "("
  | .closeParen => ")"
  | _ => ""

/-- `msOGREscapeSQLParam` defers to the back end's own escaping routine
(`CPLEscapeString`, external to this file); no claim depends on its output,
so it is modelled as the identity. -/
def msOGREscapeSQLParam (s : String) : String := s

/-- `msLayerEscapePropertyName`, external to this file; modelled as the
identity (no claim depends on its output). -/
def msLayerEscapePropertyName (s : String) : String := s

/-- Rendering of a numeric literal (`sprintf(snippet, "%lf", ...)`,
mapogr.cpp:1378); the exact digit string is irrelevant to every claim. -/
def renderNumber (v : ℚ) : String := toString v

/-- Substitute every `%s` occurrence in a character list by `arg`. -/
def substPercentS : List Char → String → String
  | [], _ => ""
  | '%' :: 's' :: rest, arg => arg ++ substPercentS rest arg
  | c :: rest, arg => String.singleton c ++ substPercentS rest arg

/-- `sprintf` with a `%s` template (mapogr.cpp:1400). -/
def sprintfTemplate (tmpl arg : String) : String :=
  substPercentS tmpl.toList arg

/-- The bIsIntersectRectangle test (mapogr.cpp:1423-1436): the literal shape
is a single closed 5-point ring forming an axis-aligned rectangle. -/
def isIntersectRectangle (shp : shapeObj) : Bool :=
  match shp.type, shp.line with
  | .polygon, [l] =>
      match l.point with
      | [p0, p1, p2, p3, p4] =>
          p0.x == p1.x && p0.y == p3.y && p2.x == p3.x && p1.y == p2.y &&
          p0.x == p4.x && p0.y == p4.y
      | _ => false
  | _, _ => false

/-- How translation can fail: `notTranslatable` is the `goto cleanup` path
(the function returns NULL and the caller falls back to local evaluation);
`nullDeref` marks the undefined behaviour of dereferencing a null pointer
(`strlen(strtmpl)` with `strtmpl == NULL`, or reading `node->next->token`
past the last token). -/
inductive TransErr where
  | notTranslatable
  | nullDeref
deriving DecidableEq

/-- The mutable state of the token walk: the accumulated SQL text
(`msSQLExpression`, with NULL modelled as the empty string since
`msStringConcatenate(NULL, s)` starts a fresh string), the literal-snippet
template pointer `strtmpl` (NULL at entry, mapogr.cpp:1366), the extracted
bbox (`sBBOX`/`sBBOXValid`) and the `bIsIntersectRectangle` flag. -/
structure TransState where
  sql : String
  strtmpl : Option String
  sBBOX : Option rectObj
  bIsIntersectRectangle : Bool
deriving DecidableEq

/-- The token walk of `msOGRTranslateMsExpressionToOGRSQL`
(mapogr.cpp:1369-1469), one case per recognized token.  Literal tokens size
their snippet with `strlen(strtmpl)` (mapogr.cpp:1377,1384) — a null
dereference when no binding token has set `strtmpl` yet.  The spatial
`intersects` sequence is matched token by token through `node->next`
chains; each step past the end of the token list is itself a null
dereference.  A logical AND immediately followed by the intersects token is
consumed, and the loop then advances past the intersects token itself. -/
def translateTokens : List Token → TransState → Except TransErr TransState
  | [], st => .ok st
  | t :: rest, st =>
    match t with
    | .literalNumber v =>
        match st.strtmpl with
        | none => .error .nullDeref
        | some _ =>
            translateTokens rest { st with sql := st.sql ++ renderNumber v }
    | .literalString sv =>
        match st.strtmpl with
        | none => .error .nullDeref
        | some _ =>
            translateTokens rest
              { st with
                sql := st.sql ++ "'" ++ msOGREscapeSQLParam sv ++ "'" }
    | .bindingString item =>
        let tmpl := "CAST(%s AS CHARACTER)"
        translateTokens rest
          { st with
            strtmpl := some tmpl
            sql := st.sql ++
              sprintfTemplate tmpl (msLayerEscapePropertyName item) }
    | .bindingDouble item | .bindingInteger item =>
        match rest.head? with
        | none => .error .nullDeref
        | some nt =>
            let tmpl :=
              if nt = .comparisonRe ∨ nt = .comparisonIre then
                "CAST(%s AS CHARACTER)"
              else "%s"
            translateTokens rest
              { st with
                strtmpl := some tmpl
                sql := st.sql ++
                  sprintfTemplate tmpl (msLayerEscapePropertyName item) }
    | .comparisonIntersects =>
        match rest with
        | [] => .error .nullDeref
        | t1 :: r1 =>
          if t1 ≠ .openParen then .error .notTranslatable else
          match r1 with
          | [] => .error .nullDeref
          | t2 :: r2 =>
            if t2 ≠ .bindingShape then .error .notTranslatable else
            match r2 with
            | [] => .error .nullDeref
            | t3 :: r3 =>
              if t3 ≠ .comma then .error .notTranslatable else
              match r3 with
              | [] => .error .nullDeref
              | t4 :: r4 =>
                match t4 with
                | .literalShape shp =>
                  match r4 with
                  | [] => .error .nullDeref
                  | t5 :: r5 =>
                    if t5 ≠ .closeParen then .error .notTranslatable else
                    match r5 with
                    | [] => .error .nullDeref
                    | t6 :: r6 =>
                      if t6 ≠ .comparisonEq then .error .notTranslatable else
                      match r6 with
                      | [] => .error .nullDeref
                      | t7 :: r7 =>
                        match t7 with
                        | .literalBoolean v =>
                          if v ≠ 1 then .error .notTranslatable else
                          let st :=
                            { st with
                              sBBOX := some shp.bounds
                              bIsIntersectRectangle :=
                                if isIntersectRectangle shp then true
                                else st.bIsIntersectRectangle }
                          match r7 with
                          | Token.logicalAnd :: r8 => translateTokens r8 st
                          | r7other => translateTokens r7other st
                        | _ => .error .notTranslatable
                | _ => .error .notTranslatable
    | .logicalAnd =>
        match rest with
        | Token.comparisonIntersects :: r =>
            -- the AND is consumed; the loop footer then also steps past
            -- the intersects token itself (mapogr.cpp:1456-1458, 1468)
            translateTokens r st
        | restother =>
            translateTokens restother
              { st with sql := st.sql ++ msExpressionTokenToString t }
    | .comparisonEq | .comparisonNe | .comparisonGt | .comparisonGe
    | .comparisonLt | .comparisonLe | .logicalNot | .logicalOr
    | .openParen | .closeParen =>
        translateTokens rest
          { st with sql := st.sql ++ msExpressionTokenToString t }
    | _ => .error .notTranslatable

/-- The outcome of a completed translation: the SQL text returned to the
caller, the `layer->filter.native_string` set when the filter was fully
absorbed (mapogr.cpp:1471-1481), and the refined view rectangle. -/
structure TransResult where
  sql : String
  native_string : Option String
  rect : rectObj
deriving DecidableEq

/-- `msOGRTranslateMsExpressionToOGRSQL` (mapogr.cpp:1356-1496): walk the
tokens, then set the native string when no bbox was extracted or the
intersects literal was exactly a rectangle, and combine the extracted bbox
into the caller's rectangle with `MS_MAX/MS_MAX/MS_MIN/MS_MAX`
(mapogr.cpp:1485-1488 — note the `MS_MAX` on `maxy`). -/
def msOGRTranslateMsExpressionToOGRSQL (tokens : List Token)
    (psRect : rectObj) : Except TransErr TransResult :=
  match translateTokens tokens ⟨"", none, none, false⟩ with
  | .error e => .error e
  | .ok st =>
      let native :=
        if st.sBBOX.isNone ∨ st.bIsIntersectRectangle then some st.sql
        else none
      let rect :=
        match st.sBBOX with
        | some b =>
            { minx := max psRect.minx b.minx
              miny := max psRect.miny b.miny
              maxx := min psRect.maxx b.maxx
              maxy := max psRect.maxy b.maxy }
        | none => psRect
      .ok ⟨st.sql, native, rect⟩

/-! ## Claim C2 — legacy two-slot layout -/

/-- C2 counterexample: with legacy two-slot mode triggered by the part order
[Pen, Brush] on a Line-type layer, `bIsBrush` is still unset when the Pen is
parsed, so the Pen is written to slot 0 and the Brush is then written over
the same slot 0: the class ends with a single style slot holding both parts,
not with slot 0 = brush and slot 1 = pen as the claim states for every part
order and layer type. -/
theorem legacy_two_slot_claim_cex :
    msOGRUpdateStyle .line [.pen none, .brush none false] = [[0, 1]] ∧
    msOGRUpdateStyle .line [.pen none, .brush none false] ≠ [[1], [0]] := by
  constructor <;> decide

/-- C2 as amended: in legacy two-slot mode, slot 0 receives the brush-derived
style and slot 1 the pen-derived style exactly when the layer is
Polygon-type, or a visible (non-`ogr-brush-1`) Brush precedes the Pen; for a
Pen preceding the Brush, or an invisible Brush preceding the Pen, on a
non-Polygon layer, both parts are written into slot 0 and no slot 1 exists.
Parts are reported by discovery index (0 and 1). -/
theorem legacy_two_slot_layout (lt : LayerType) (inv : Bool) :
    (msOGRUpdateStyle .polygon [.pen none, .brush none inv] = [[1], [0]]) ∧
    (inv = false →
      msOGRUpdateStyle lt [.brush none inv, .pen none] = [[0], [1]]) ∧
    (lt = .polygon →
      msOGRUpdateStyle lt [.brush none inv, .pen none] = [[0], [1]]) ∧
    (lt ≠ .polygon →
      msOGRUpdateStyle lt [.pen none, .brush none inv] = [[0, 1]]) ∧
    (lt ≠ .polygon → inv = true →
      msOGRUpdateStyle lt [.brush none inv, .pen none] = [[0, 1]]) := by
  cases lt <;> cases inv <;> refine ⟨by decide, ?_, ?_, ?_, ?_⟩ <;>
    intros <;> simp_all <;> decide

/-- Witness for `legacy_two_slot_layout` at a Line-type layer with a visible
brush. -/
theorem legacy_two_slot_layout_witness :
    ((false = false →
        msOGRUpdateStyle .line [.brush none false, .pen none] = [[0], [1]]) ∧
     (LayerType.line ≠ .polygon →
        msOGRUpdateStyle .line [.pen none, .brush none false] = [[0, 1]])) ∧
    false = false ∧ LayerType.line ≠ LayerType.polygon :=
  ⟨⟨(legacy_two_slot_layout .line false).2.1,
    (legacy_two_slot_layout .line false).2.2.2.1⟩, rfl, by decide⟩

/-! ## Claim C3 — incompatible geometry on fetch -/

/-- C3 counterexample: random access by id to a feature whose Point geometry
is incompatible with a Polygon-type layer is reported as an explicit failure
(mapogr.cpp:2007-2013), not silently skipped. -/
theorem getshape_incompatible_error_cex :
    msOGRFileGetShape .polygon [(1, some (.point ⟨0, 0⟩))] 1 true =
      .failure "Requested feature is incompatible with layer type" := by
  decide

/-- C3 as amended: during sequential next-shape, a feature whose converted
shape is Null is skipped and iteration continues with the rest of the
stream, and only a conversion error (unsupported subtype) is a failure; but
during random access by id (`msOGRFileGetShape`), a converted shape of type
Null is reported as a failure ("Requested feature is incompatible with layer
type"). -/
theorem incompatible_geometry_fetch_behavior
    (lt : LayerType) (f : Option OGRGeometry) (rest : List (Option OGRGeometry))
    (feats : List (Int × Option OGRGeometry)) (rec : Int)
    (s : shapeObj) (msg : String) :
    (ogrConvertGeometry f freshShape lt = (s, none) → s.type = .null →
      msOGRFileNextShape lt (f :: rest) = msOGRFileNextShape lt rest) ∧
    (ogrConvertGeometry f freshShape lt = (s, some msg) →
      msOGRFileNextShape lt (f :: rest) = .failure msg) ∧
    ((feats.find? (fun x => x.1 = rec)).map (·.2) = some f →
      ogrConvertGeometry f freshShape lt = (s, none) → s.type = .null →
      msOGRFileGetShape lt feats rec true =
        .failure "Requested feature is incompatible with layer type") := by
  refine ⟨?_, ?_, ?_⟩
  · intro h ht
    simp [msOGRFileNextShape, h, ht]
  · intro h
    simp [msOGRFileNextShape, h]
  · intro hf h ht
    simp [msOGRFileGetShape, hf, h, ht]

/-- Witness for `incompatible_geometry_fetch_behavior`: a Point feature on a
Polygon-type layer. -/
theorem incompatible_geometry_fetch_behavior_witness :
    (ogrConvertGeometry (some (.point ⟨0, 0⟩)) freshShape .polygon =
        (freshShape, none) ∧
      freshShape.type = .null ∧
      ([((1 : Int), some (OGRGeometry.point ⟨0, 0⟩))].find?
          (fun x => x.1 = (1 : Int))).map (·.2) =
        some (some (.point ⟨0, 0⟩))) ∧
    (msOGRFileNextShape .polygon [some (.point ⟨0, 0⟩)] =
        msOGRFileNextShape .polygon [] ∧
      msOGRFileGetShape .polygon [(1, some (.point ⟨0, 0⟩))] 1 true =
        .failure "Requested feature is incompatible with layer type") :=
  ⟨⟨by decide, by decide, rfl⟩,
   (incompatible_geometry_fetch_behavior .polygon (some (.point ⟨0, 0⟩)) []
      [(1, some (.point ⟨0, 0⟩))] 1 freshShape "").1 (by decide) (by decide),
   (incompatible_geometry_fetch_behavior .polygon (some (.point ⟨0, 0⟩)) []
      [(1, some (.point ⟨0, 0⟩))] 1 freshShape "").2.2 rfl (by decide)
     (by decide)⟩

/-! ## Claim C4 — geometry coercion policy -/

/-- The `wkbPoint/wkbPoint25D/wkbMultiPoint/wkbMultiPoint25D` test of the
Query/Chart dispatch (mapogr.cpp:437-441; this model carries no separate
25D variants). -/
def isPointOrMultiPoint : OGRGeometry → Bool
  | .point _ => true
  | .multiPoint _ => true
  | _ => false

/-- C4: coercion follows the layer-type policy table for every geometry and
every layer type.  Point layers always use point extraction; Line layers use
line extraction without closure and force the shape type to Null unless it
came out Line or Polygon; Polygon layers use line extraction with ring
closure and force Null unless Polygon; Query/Chart layers dispatch
Point/MultiPoint input to point extraction and everything else to line
extraction without closure.  In particular a Point or MultiPoint geometry
against a Polygon-type layer always yields a Null-typed shape with no
error, and Polygon (resp. Line) layers only ever produce Null or Polygon
(resp. Null, Line or Polygon) shapes. -/
theorem geometry_coercion_policy (p : Point) (ps : List Point)
    (g : OGRGeometry) (s : shapeObj) :
    (ogrConvertGeometry (some g) s .point = ogrGeomPoints g s) ∧
    ((ogrConvertGeometry (some g) s .line).2 = (ogrGeomLine g s false).2 ∧
      ((ogrGeomLine g s false).1.type = .line ∨
          (ogrGeomLine g s false).1.type = .polygon →
        (ogrConvertGeometry (some g) s .line).1 =
          (ogrGeomLine g s false).1) ∧
      ((ogrGeomLine g s false).1.type ≠ .line →
        (ogrGeomLine g s false).1.type ≠ .polygon →
        (ogrConvertGeometry (some g) s .line).1 =
          { (ogrGeomLine g s false).1 with type := .null })) ∧
    ((ogrConvertGeometry (some g) s .polygon).2 =
        (ogrGeomLine g s true).2 ∧
      ((ogrGeomLine g s true).1.type = .polygon →
        (ogrConvertGeometry (some g) s .polygon).1 =
          (ogrGeomLine g s true).1) ∧
      ((ogrGeomLine g s true).1.type ≠ .polygon →
        (ogrConvertGeometry (some g) s .polygon).1 =
          { (ogrGeomLine g s true).1 with type := .null })) ∧
    ((isPointOrMultiPoint g = true →
        ogrConvertGeometry (some g) s .query = ogrGeomPoints g s ∧
        ogrConvertGeometry (some g) s .chart = ogrGeomPoints g s) ∧
      (isPointOrMultiPoint g = false →
        ogrConvertGeometry (some g) s .query = ogrGeomLine g s false ∧
        ogrConvertGeometry (some g) s .chart = ogrGeomLine g s false)) ∧
    ((ogrConvertGeometry (some (.point p)) freshShape .polygon).1.type =
        .null ∧
      (ogrConvertGeometry (some (.point p)) freshShape .polygon).2 = none ∧
      (ogrConvertGeometry (some (.multiPoint ps)) freshShape
          .polygon).1.type = .null ∧
      (ogrConvertGeometry (some (.multiPoint ps)) freshShape .polygon).2 =
        none) ∧
    (((ogrConvertGeometry (some g) s .polygon).1.type = .null ∨
        (ogrConvertGeometry (some g) s .polygon).1.type = .polygon) ∧
      ((ogrConvertGeometry (some g) s .line).1.type = .null ∨
        (ogrConvertGeometry (some g) s .line).1.type = .line ∨
        (ogrConvertGeometry (some g) s .line).1.type = .polygon)) := by
  refine ⟨rfl, ⟨rfl, ?_, ?_⟩, ⟨rfl, ?_, ?_⟩, ⟨?_, ?_⟩,
    ⟨?_, ?_, ?_, ?_⟩, ?_, ?_⟩
  · rintro (h | h) <;> simp [ogrConvertGeometry, h]
  · intro h1 h2
    simp [ogrConvertGeometry, h1, h2]
  · intro h
    simp [ogrConvertGeometry, h]
  · intro h
    simp [ogrConvertGeometry, h]
  · intro h
    cases g <;> first
      | exact ⟨rfl, rfl⟩
      | simp [isPointOrMultiPoint] at h
  · intro h
    cases g <;> first
      | exact ⟨rfl, rfl⟩
      | simp [isPointOrMultiPoint] at h
  · simp [ogrConvertGeometry, ogrGeomLine, freshShape]
  · simp [ogrConvertGeometry, ogrGeomLine, freshShape]
  · simp [ogrConvertGeometry, ogrGeomLine, freshShape]
  · simp [ogrConvertGeometry, ogrGeomLine, freshShape]
  · by_cases h : (ogrGeomLine g s true).1.type = .polygon
    · right; simp [ogrConvertGeometry, h]
    · left; simp [ogrConvertGeometry, h]
  · by_cases h1 : (ogrGeomLine g s false).1.type = .line
    · right; left; simp [ogrConvertGeometry, h1]
    · by_cases h2 : (ogrGeomLine g s false).1.type = .polygon
      · right; right; simp [ogrConvertGeometry, h1, h2]
      · left; simp [ogrConvertGeometry, h1, h2]

/-- Witness for `geometry_coercion_policy`: a 2-point linestring exercises
the Line-layer keep branch and the Query/Chart line-extraction branch, a
point exercises the Query point-extraction branch and the Polygon-layer
force-Null branch. -/
theorem geometry_coercion_policy_witness :
    ((ogrGeomLine (.lineString [⟨0, 0⟩, ⟨1, 1⟩]) freshShape
          false).1.type = .line ∧
      isPointOrMultiPoint (OGRGeometry.point ⟨2, 3⟩) = true ∧
      isPointOrMultiPoint (OGRGeometry.lineString [⟨0, 0⟩, ⟨1, 1⟩]) =
        false ∧
      (ogrGeomLine (OGRGeometry.point ⟨2, 3⟩) freshShape true).1.type ≠
        .polygon) ∧
    ((ogrConvertGeometry (some (.lineString [⟨0, 0⟩, ⟨1, 1⟩])) freshShape
          .line).1 =
        (ogrGeomLine (.lineString [⟨0, 0⟩, ⟨1, 1⟩]) freshShape false).1 ∧
      ogrConvertGeometry (some (.point ⟨2, 3⟩)) freshShape .query =
        ogrGeomPoints (.point ⟨2, 3⟩) freshShape ∧
      ogrConvertGeometry (some (.lineString [⟨0, 0⟩, ⟨1, 1⟩])) freshShape
          .chart =
        ogrGeomLine (.lineString [⟨0, 0⟩, ⟨1, 1⟩]) freshShape false ∧
      (ogrConvertGeometry (some (.point ⟨2, 3⟩)) freshShape .polygon).1 =
        { (ogrGeomLine (.point ⟨2, 3⟩) freshShape true).1 with
            type := .null }) := by
  refine ⟨⟨by decide, by decide, by decide, by decide⟩, ?_, ?_, ?_, ?_⟩
  · exact (geometry_coercion_policy ⟨2, 3⟩ []
      (.lineString [⟨0, 0⟩, ⟨1, 1⟩]) freshShape).2.1.2.1
      (Or.inl (by decide))
  · exact ((geometry_coercion_policy ⟨2, 3⟩ [] (.point ⟨2, 3⟩)
      freshShape).2.2.2.1.1 (by decide)).1
  · exact ((geometry_coercion_policy ⟨2, 3⟩ []
      (.lineString [⟨0, 0⟩, ⟨1, 1⟩]) freshShape).2.2.2.1.2 (by decide)).2
  · exact (geometry_coercion_policy ⟨2, 3⟩ [] (.point ⟨2, 3⟩)
      freshShape).2.2.1.2.2 (by decide)

/-! ## Claim C7 — exact legacy-mode detection -/

/-- Number of Pen parts. -/
def countPen : List StylePart → Nat
  | [] => 0
  | .pen _ :: rest => countPen rest + 1
  | _ :: rest => countPen rest

/-- Number of Brush parts. -/
def countBrush : List StylePart → Nat
  | [] => 0
  | .brush _ _ :: rest => countBrush rest + 1
  | _ :: rest => countBrush rest

/-- Generalized characterization of the counting loop of
`msOGRUpdateStyleCheckPenBrushOnly`. -/
theorem checkPenBrushOnlyLoop_iff (parts : List StylePart)
    (cp cb : Nat) :
    checkPenBrushOnlyLoop parts cp cb = true ↔
      (cp + countPen parts = 1 ∧ cb + countBrush parts = 1 ∧
        (∀ pri, StylePart.pen pri ∈ parts → pri = none) ∧
        (∀ pri inv, StylePart.brush pri inv ∈ parts → pri = none) ∧
        (∀ pri, StylePart.symbol pri ∉ parts)) := by
  induction parts generalizing cp cb with
  | nil =>
      simp [checkPenBrushOnlyLoop, countPen, countBrush]
  | cons hd tl ih =>
      cases hd with
      | pen pri =>
          cases pri with
          | none =>
              rw [checkPenBrushOnlyLoop]
              simp only [Option.isSome_none, Bool.false_eq_true, if_false,
                ih, countPen, countBrush, List.mem_cons]
              constructor
              · rintro ⟨h1, h2, h3, h4, h5⟩
                refine ⟨by omega, h2, ?_, ?_, ?_⟩
                · rintro pri (h | h)
                  · cases h; rfl
                  · exact h3 pri h
                · rintro pri inv (h | h)
                  · cases h
                  · exact h4 pri inv h
                · intro pri h
                  rcases h with h | h
                  · cases h
                  · exact h5 pri h
              · rintro ⟨h1, h2, h3, h4, h5⟩
                refine ⟨by omega, h2, ?_, ?_, ?_⟩
                · exact fun pri h => h3 pri (Or.inr h)
                · exact fun pri inv h => h4 pri inv (Or.inr h)
                · exact fun pri h => h5 pri (Or.inr h)
          | some v =>
              rw [checkPenBrushOnlyLoop]
              simp only [Option.isSome_some, if_true, List.mem_cons]
              constructor
              · intro h; cases h
              · rintro ⟨_, _, h3, _, _⟩
                have := h3 (some v) (Or.inl rfl)
                cases this
      | brush pri inv0 =>
          cases pri with
          | none =>
              rw [checkPenBrushOnlyLoop]
              simp only [Option.isSome_none, Bool.false_eq_true, if_false,
                ih, countPen, countBrush, List.mem_cons]
              constructor
              · rintro ⟨h1, h2, h3, h4, h5⟩
                refine ⟨h1, by omega, ?_, ?_, ?_⟩
                · rintro pri (h | h)
                  · cases h
                  · exact h3 pri h
                · rintro pri inv (h | h)
                  · cases h; rfl
                  · exact h4 pri inv h
                · intro pri h
                  rcases h with h | h
                  · cases h
                  · exact h5 pri h
              · rintro ⟨h1, h2, h3, h4, h5⟩
                refine ⟨h1, by omega, ?_, ?_, ?_⟩
                · exact fun pri h => h3 pri (Or.inr h)
                · exact fun pri inv h => h4 pri inv (Or.inr h)
                · exact fun pri h => h5 pri (Or.inr h)
          | some v =>
              rw [checkPenBrushOnlyLoop]
              simp only [Option.isSome_some, if_true, List.mem_cons]
              constructor
              · intro h; cases h
              · rintro ⟨_, _, _, h4, _⟩
                have := h4 (some v) inv0 (Or.inl rfl)
                cases this
      | symbol pri =>
          rw [checkPenBrushOnlyLoop]
          simp only [List.mem_cons]
          constructor
          · intro h; cases h
          · rintro ⟨_, _, _, _, h5⟩
            exact absurd (Or.inl rfl) (h5 pri)
      | label =>
          rw [checkPenBrushOnlyLoop]
          simp only [ih, countPen, countBrush, List.mem_cons]
          constructor
          · rintro ⟨h1, h2, h3, h4, h5⟩
            refine ⟨h1, h2, ?_, ?_, ?_⟩
            · rintro pri (h | h)
              · cases h
              · exact h3 pri h
            · rintro pri inv (h | h)
              · cases h
              · exact h4 pri inv h
            · intro pri h
              rcases h with h | h
              · cases h
              · exact h5 pri h
          · rintro ⟨h1, h2, h3, h4, h5⟩
            refine ⟨h1, h2, ?_, ?_, ?_⟩
            · exact fun pri h => h3 pri (Or.inr h)
            · exact fun pri inv h => h4 pri inv (Or.inr h)
            · exact fun pri h => h5 pri (Or.inr h)

/-- C7: legacy two-slot mode is triggered exactly when the decoded parts
hold one Pen and one Brush, neither Pen nor Brush carries an explicit
priority, and no Symbol part is present (Label parts are ignored by the
detection). -/
theorem legacy_mode_detection_exact (parts : List StylePart) :
    msOGRUpdateStyleCheckPenBrushOnly parts = true ↔
      (countPen parts = 1 ∧ countBrush parts = 1 ∧
        (∀ pri, StylePart.pen pri ∈ parts → pri = none) ∧
        (∀ pri inv, StylePart.brush pri inv ∈ parts → pri = none) ∧
        (∀ pri, StylePart.symbol pri ∉ parts)) := by
  have := checkPenBrushOnlyLoop_iff parts 0 0
  simpa [msOGRUpdateStyleCheckPenBrushOnly] using this

/-! ## Claim C8 — tiled cursor skip behaviour -/

/-- C8: when the tiled cursor advances sequentially (`targetTile == -1`) and
opening the named sub-dataset fails, the index record is skipped and the
next one is tried; index exhaustion yields the normal `MS_DONE` signal; but
a random access to an explicitly requested tile identity whose open fails is
a failure.  The 3-record scenario (record 2 unopenable) yields tiles 1 and 3
in order and then `MS_DONE`, never a failure. -/
theorem tiled_cursor_skip (r : TileRecord) (rest index : List TileRecord)
    (t : Int) (rt : TileRecord) :
    (r.opensOK = false →
      msOGRFileReadTile (r :: rest) (-1) = msOGRFileReadTile rest (-1)) ∧
    (msOGRFileReadTile [] (-1) = .done) ∧
    (0 ≤ t → index.find? (fun x => x.fid = t) = some rt →
      rt.opensOK = false → msOGRFileReadTile index t = .failure) ∧
    (msOGRFileReadTile [⟨1, true⟩, ⟨2, false⟩, ⟨3, true⟩] (-1) =
        .success 1 [⟨2, false⟩, ⟨3, true⟩] ∧
      msOGRFileReadTile [⟨2, false⟩, ⟨3, true⟩] (-1) = .success 3 [] ∧
      msOGRFileReadTile [] (-1) = .done) := by
  refine ⟨?_, by decide, ?_, by decide, by decide, by decide⟩
  · intro h
    simp [msOGRFileReadTile, msOGRFileReadTileSeq, h]
  · intro ht hf hopen
    have hneg : ¬(t < 0) := by omega
    simp [msOGRFileReadTile, hneg, hf, hopen]

/-- Witness for `tiled_cursor_skip` at the scenario's failing record. -/
theorem tiled_cursor_skip_witness :
    ((⟨2, false⟩ : TileRecord).opensOK = false ∧
      (0 : Int) ≤ 2 ∧
      ([⟨2, false⟩, ⟨3, true⟩] : List TileRecord).find?
          (fun x => x.fid = 2) = some ⟨2, false⟩) ∧
    (msOGRFileReadTile [⟨2, false⟩, ⟨3, true⟩] (-1) =
        msOGRFileReadTile [⟨3, true⟩] (-1) ∧
      msOGRFileReadTile [⟨2, false⟩, ⟨3, true⟩] 2 = .failure) :=
  ⟨⟨rfl, by decide, by decide⟩,
   (tiled_cursor_skip ⟨2, false⟩ [⟨3, true⟩] [⟨2, false⟩, ⟨3, true⟩] 2
      ⟨2, false⟩).1 rfl,
   (tiled_cursor_skip ⟨2, false⟩ [⟨3, true⟩] [⟨2, false⟩, ⟨3, true⟩] 2
      ⟨2, false⟩).2.2.1 (by decide) (by decide) rfl⟩

/-! ## Claim C9 — idempotent ring closure -/

/-- The line added by `ogrGeomLine` for a linestring of at least 2 points:
the input points, closed with a copy of the first point exactly when closure
is requested and the last point differs from the first. -/
theorem geomLine_lineString_line (ps : List Point) (s : shapeObj) (b : Bool)
    (h2 : 2 ≤ ps.length) (pf pl : Point) (hh : ps.head? = some pf)
    (hl : ps.getLast? = some pl) :
    (ogrGeomLine (.lineString ps) s b).1.line =
      s.line ++ [⟨if b ∧ (pl.x ≠ pf.x ∨ pl.y ≠ pf.y) then ps ++ [pf]
                  else ps⟩] := by
  have hlt : ¬ ps.length < 2 := by omega
  simp only [ogrGeomLine, hlt, if_false, hh, hl]
  split <;> simp

/-- C9: ring closure in polygon-mode line extraction is idempotent.  For a
linestring of at least 2 points whose last point equals its first, the added
ring is the input unchanged; when the last point differs from the first,
exactly one point equal to the first is appended, so the ring has exactly
one more point than the input. -/
theorem ring_closure_idempotent (p q : Point) (rest : List Point)
    (s : shapeObj) :
    ((p :: q :: rest).getLast (List.cons_ne_nil p (q :: rest)) = p →
      (ogrGeomLine (.lineString (p :: q :: rest)) s true).1.line =
        s.line ++ [⟨p :: q :: rest⟩]) ∧
    ((p :: q :: rest).getLast (List.cons_ne_nil p (q :: rest)) ≠ p →
      (ogrGeomLine (.lineString (p :: q :: rest)) s true).1.line =
        s.line ++ [⟨(p :: q :: rest) ++ [p]⟩] ∧
      ((p :: q :: rest) ++ [p]).length = (p :: q :: rest).length + 1) := by
  have hne : (p :: q :: rest) ≠ [] := List.cons_ne_nil p (q :: rest)
  have hl : (p :: q :: rest).getLast? =
      some ((p :: q :: rest).getLast hne) :=
    List.getLast?_eq_getLast_of_ne_nil hne
  have hmain := geomLine_lineString_line (p :: q :: rest) s true
    (by simp) p ((p :: q :: rest).getLast hne) rfl hl
  constructor
  · intro hcl
    rw [hmain, if_neg]
    rw [hcl]
    simp
  · intro hcl
    have hxy : ((p :: q :: rest).getLast hne).x ≠ p.x ∨
        ((p :: q :: rest).getLast hne).y ≠ p.y := by
      by_contra hc
      push_neg at hc
      apply hcl
      cases h : (p :: q :: rest).getLast hne
      cases p
      rw [h] at hc
      simp_all
    rw [hmain, if_pos ⟨rfl, hxy⟩]
    simp

/-- Witness for `ring_closure_idempotent`: a closed triangle stays as is and
an open 2-point segment gains exactly one closing point. -/
theorem ring_closure_idempotent_witness :
    (([⟨0, 0⟩, ⟨1, 0⟩, ⟨0, 0⟩] : List Point).getLast
        (List.cons_ne_nil _ _) = (⟨0, 0⟩ : Point) ∧
      (ogrGeomLine (.lineString [⟨0, 0⟩, ⟨1, 0⟩, ⟨0, 0⟩]) freshShape
          true).1.line = [⟨[⟨0, 0⟩, ⟨1, 0⟩, ⟨0, 0⟩]⟩]) ∧
    (([⟨0, 0⟩, ⟨1, 2⟩] : List Point).getLast
        (List.cons_ne_nil _ _) ≠ (⟨0, 0⟩ : Point) ∧
      (ogrGeomLine (.lineString [⟨0, 0⟩, ⟨1, 2⟩]) freshShape true).1.line =
        [⟨[⟨0, 0⟩, ⟨1, 2⟩, ⟨0, 0⟩]⟩]) :=
  ⟨⟨by decide, by
      have := (ring_closure_idempotent ⟨0, 0⟩ ⟨1, 0⟩ [⟨0, 0⟩]
        freshShape).1 (by decide)
      simpa [freshShape] using this⟩,
   ⟨by decide, by
      have := ((ring_closure_idempotent ⟨0, 0⟩ ⟨1, 2⟩ []
        freshShape).2 (by decide)).1
      simpa [freshShape] using this⟩⟩

/-! ## Claim C1 — bbox refinement is not a true intersection -/

/-- Decidable equality of translation outcomes. -/
instance instDecEqExcept {e a : Type} [DecidableEq e] [DecidableEq a] :
    DecidableEq (Except e a) := fun x y =>
  match x, y with
  | .ok u, .ok v =>
      if h : u = v then .isTrue (by rw [h])
      else .isFalse (by intro hc; cases hc; exact h rfl)
  | .error u, .error v =>
      if h : u = v then .isTrue (by rw [h])
      else .isFalse (by intro hc; cases hc; exact h rfl)
  | .ok _, .error _ => .isFalse (by intro hc; cases hc)
  | .error _, .ok _ => .isFalse (by intro hc; cases hc)

/-- The unit-square literal shape of the spatial predicate (a 5-point closed
axis-aligned rectangle with bounds (0,0)-(1,1)). -/
def unitSquareShape : shapeObj :=
  { type := .polygon
    line := [⟨[⟨0, 0⟩, ⟨0, 1⟩, ⟨1, 1⟩, ⟨1, 0⟩, ⟨0, 0⟩]⟩]
    bounds := ⟨0, 0, 1, 1⟩ }

/-- Scenario A token sequence:
`intersects([shape], <unit square>) = TRUE AND "[name]" = 'foo'`. -/
def scenarioATokens : List Token :=
  [.comparisonIntersects, .openParen, .bindingShape, .comma,
   .literalShape unitSquareShape, .closeParen, .comparisonEq,
   .literalBoolean 1, .logicalAnd, .bindingString "name", .comparisonEq,
   .literalString "foo"]

/-- The caller's view rectangle for the C1 evaluation: its `maxy = 0` lies
below the literal shape's `maxy = 1`. -/
def scenarioAViewRect : rectObj := ⟨-10, -10, 10, 0⟩

/-- C1 evaluation at the failing input: the spatial predicate is fully
absorbed (native string set, no leftover spatial clause) and minx/miny/maxx
are combined by true intersection, but the produced `maxy` is
`MS_MAX(0, 1) = 1` (mapogr.cpp:1488) — the *widened* value — whereas the
set-intersection of the two rectangles has `maxy = min 0 1 = 0`.  The claim
that the produced rectangle equals the set-intersection on both axes fails
on the y-maximum. -/
theorem filter_bbox_maxy_widened_eval :
    msOGRTranslateMsExpressionToOGRSQL scenarioATokens scenarioAViewRect =
      .ok ⟨"CAST(name AS CHARACTER) = 'foo'",
           some "CAST(name AS CHARACTER) = 'foo'", ⟨0, 0, 1, 1⟩⟩ ∧
    min scenarioAViewRect.maxy unitSquareShape.bounds.maxy = 0 ∧
    (⟨0, 0, 1, 1⟩ : rectObj).maxy ≠
      min scenarioAViewRect.maxy unitSquareShape.bounds.maxy := by
  refine ⟨by decide, by decide, by decide⟩

/-! ## Claim C10 — literal before any binding dereferences null -/

/-- The operator tokens the translator copies through verbatim (the cases of
mapogr.cpp:1445-1455), none of which assigns `strtmpl`. -/
def isPassThroughOperator : Token → Bool
  | .comparisonEq | .comparisonNe | .comparisonGt | .comparisonGe
  | .comparisonLt | .comparisonLe | .logicalAnd | .logicalOr
  | .logicalNot | .openParen | .closeParen => true
  | _ => false

/-- A numeric or string literal token (the two cases whose snippet size is
computed as `strlen(strtmpl) + ...`, mapogr.cpp:1377 and 1384). -/
def isPlainLiteral : Token → Bool
  | .literalNumber _ | .literalString _ => true
  | _ => false

/-- One translator step on a numeric or string literal while `strtmpl` is
still null: the snippet-size computation dereferences the null pointer. -/
theorem translateTokens_literal_step (lit : Token) (rest : List Token)
    (st : TransState) (hst : st.strtmpl = none)
    (hlit : isPlainLiteral lit = true) :
    translateTokens (lit :: rest) st = .error .nullDeref := by
  obtain ⟨sql, tmpl, bbox, brect⟩ := st
  cases tmpl with
  | some tv => simp at hst
  | none =>
      cases lit with
      | literalNumber v => rfl
      | literalString sv => rfl
      | _ => simp [isPlainLiteral] at hlit

/-- One translator step on a pass-through operator other than logical AND:
the token is emitted and `strtmpl` is untouched. -/
theorem translateTokens_passThrough_step (t : Token) (rest : List Token)
    (st : TransState) (ht : isPassThroughOperator t = true)
    (htA : t ≠ .logicalAnd) :
    translateTokens (t :: rest) st =
      translateTokens rest
        { st with sql := st.sql ++ msExpressionTokenToString t } := by
  cases t <;>
    first
      | rfl
      | (exact absurd rfl htA)
      | (simp [isPassThroughOperator] at ht)

/-- One translator step on a logical AND not followed by the intersects
token: the AND is emitted and `strtmpl` is untouched. -/
theorem translateTokens_logicalAnd_step (rest : List Token)
    (st : TransState)
    (h : rest.head? ≠ some Token.comparisonIntersects) :
    translateTokens (.logicalAnd :: rest) st =
      translateTokens rest
        { st with
          sql := st.sql ++ msExpressionTokenToString .logicalAnd } := by
  cases rest with
  | nil => rfl
  | cons u r =>
      cases u <;> first | rfl | (exact absurd rfl h)

/-- Walking any pass-through-operator prefix leaves `strtmpl` untouched, so
a literal reached with `strtmpl` still null dereferences it. -/
theorem translateTokens_literal_null_deref (pre : List Token) (lit : Token)
    (rest : List Token) (st : TransState) (hst : st.strtmpl = none)
    (hpre : ∀ t ∈ pre, isPassThroughOperator t = true)
    (hlit : isPlainLiteral lit = true) :
    translateTokens (pre ++ lit :: rest) st = .error .nullDeref := by
  induction pre generalizing st with
  | nil => exact translateTokens_literal_step lit rest st hst hlit
  | cons t pre ih =>
      have hpt : isPassThroughOperator t = true :=
        hpre t (List.mem_cons_self t pre)
      have hpre2 : ∀ u ∈ pre, isPassThroughOperator u = true :=
        fun u hu => hpre u (List.mem_cons_of_mem t hu)
      rw [List.cons_append]
      by_cases hA : t = Token.logicalAnd
      · subst hA
        have hhead : (pre ++ lit :: rest).head? ≠
            some Token.comparisonIntersects := by
          cases pre with
          | nil => cases lit <;> simp_all [isPlainLiteral]
          | cons u pre2 =>
              have := hpre2 u (List.mem_cons_self u pre2)
              cases u <;> simp_all [isPassThroughOperator]
        rw [translateTokens_logicalAnd_step _ _ hhead]
        exact ih _ hst hpre2
      · rw [translateTokens_passThrough_step t _ _ hpt hA]
        exact ih _ hst hpre2

/-- C10: in `msOGRTranslateMsExpressionToOGRSQL`, `strtmpl` starts as NULL
and is only assigned in the field-binding token cases, so any filter token
sequence in which a numeric or string literal is reached before any binding
token makes the snippet-size computation `strlen(strtmpl)` dereference a
null pointer: translation is not total over well-formed token sequences. -/
theorem literal_before_binding_null_deref (pre : List Token) (lit : Token)
    (rest : List Token) (rect : rectObj)
    (hpre : ∀ t ∈ pre, isPassThroughOperator t = true)
    (hlit : isPlainLiteral lit = true) :
    msOGRTranslateMsExpressionToOGRSQL (pre ++ lit :: rest) rect =
      .error .nullDeref := by
  unfold msOGRTranslateMsExpressionToOGRSQL
  rw [translateTokens_literal_null_deref pre lit rest _ rfl hpre hlit]

/-- Witness for `literal_before_binding_null_deref`:
the well-formed filter `( 5 = [field] )` reaches its numeric literal first
and hits the null dereference. -/
theorem literal_before_binding_null_deref_witness :
    ((∀ t ∈ [Token.openParen], isPassThroughOperator t = true) ∧
      isPlainLiteral (Token.literalNumber 5) = true) ∧
    msOGRTranslateMsExpressionToOGRSQL
        ([Token.openParen] ++ Token.literalNumber 5 ::
          [.comparisonEq, .bindingDouble "field", .closeParen])
        ⟨0, 0, 0, 0⟩ = .error .nullDeref :=
  ⟨⟨by decide, by decide⟩,
   literal_before_binding_null_deref [Token.openParen] (Token.literalNumber 5)
     [.comparisonEq, .bindingDouble "field", .closeParen] ⟨0, 0, 0, 0⟩
     (by decide) (by decide)⟩

/-! ## Claim C5 — bounds are the exact min/max of the visited points -/

mutual
/-- The points whose coordinates the `ogrGeomLine` bounds-tracking loop
(mapogr.cpp:313-333) reads: the points of every linestring of at least 2
points, in visit order.  Dropped leaves contribute nothing. -/
def visitedLinePoints : OGRGeometry → List Point
  | .point _ => []
  | .multiPoint _ => []
  | .lineString ps => if ps.length < 2 then [] else ps
  | .container _ cs => visitedLinePointsForest cs
  | .unsupported _ => []

/-- Forest version of `visitedLinePoints`. -/
def visitedLinePointsForest : GeomForest → List Point
  | .nil => []
  | .cons g rest => visitedLinePoints g ++ visitedLinePointsForest rest
end

mutual
/-- The points `ogrGeomPoints` passes to `ogrPointsAddPoint`, in visit
order. -/
def visitedPointPoints : OGRGeometry → List Point
  | .point p => [p]
  | .multiPoint ps => ps
  | .lineString ps => ps
  | .container _ cs => visitedPointPointsForest cs
  | .unsupported _ => []

/-- Forest version of `visitedPointPoints`. -/
def visitedPointPointsForest : GeomForest → List Point
  | .nil => []
  | .cons g rest => visitedPointPoints g ++ visitedPointPointsForest rest
end

/-- Extensionality for rectangles. -/
theorem rectObj_ext {a b : rectObj} (h1 : a.minx = b.minx)
    (h2 : a.miny = b.miny) (h3 : a.maxx = b.maxx) (h4 : a.maxy = b.maxy) :
    a = b := by
  cases a; cases b; simp_all

/-- The relaxation step written with `min`/`max`. -/
theorem relaxBounds_eq (r : rectObj) (p : Point) :
    relaxBounds r p =
      ⟨min r.minx p.x, min r.miny p.y, max r.maxx p.x, max r.maxy p.y⟩ := by
  unfold relaxBounds
  refine rectObj_ext ?_ ?_ ?_ ?_ <;> dsimp only
  · rcases lt_or_le p.x r.minx with h | h
    · rw [if_pos h, min_eq_right h.le]
    · rw [if_neg (not_lt.mpr h), min_eq_left h]
  · rcases lt_or_le p.y r.miny with h | h
    · rw [if_pos h, min_eq_right h.le]
    · rw [if_neg (not_lt.mpr h), min_eq_left h]
  · rcases lt_or_le r.maxx p.x with h | h
    · rw [if_pos h, max_eq_right h.le]
    · rw [if_neg (not_lt.mpr h), max_eq_left h]
  · rcases lt_or_le r.maxy p.y with h | h
    · rw [if_pos h, max_eq_right h.le]
    · rw [if_neg (not_lt.mpr h), max_eq_left h]

theorem relaxBoundsAll_nil (r : rectObj) : relaxBoundsAll [] r = r := rfl

theorem relaxBoundsAll_cons (p : Point) (ps : List Point) (r : rectObj) :
    relaxBoundsAll (p :: ps) r = relaxBoundsAll ps (relaxBounds r p) := rfl

theorem relaxBoundsAll_append (l1 l2 : List Point) (r : rectObj) :
    relaxBoundsAll (l1 ++ l2) r = relaxBoundsAll l2 (relaxBoundsAll l1 r) :=
  List.foldl_append _ _ _ _

/-- Relaxation only widens: the result's minima are at most, and its maxima
at least, the input's. -/
theorem relaxBoundsAll_widens (ps : List Point) (r : rectObj) :
    (relaxBoundsAll ps r).minx ≤ r.minx ∧
    (relaxBoundsAll ps r).miny ≤ r.miny ∧
    r.maxx ≤ (relaxBoundsAll ps r).maxx ∧
    r.maxy ≤ (relaxBoundsAll ps r).maxy := by
  induction ps generalizing r with
  | nil => exact ⟨le_refl _, le_refl _, le_refl _, le_refl _⟩
  | cons p ps ih =>
      rw [relaxBoundsAll_cons, relaxBounds_eq]
      rcases ih ⟨min r.minx p.x, min r.miny p.y, max r.maxx p.x,
        max r.maxy p.y⟩ with ⟨h1, h2, h3, h4⟩
      dsimp only at h1 h2 h3 h4
      exact ⟨h1.trans (min_le_left _ _), h2.trans (min_le_left _ _),
        (le_max_left _ _).trans h3, (le_max_left _ _).trans h4⟩

/-- Every relaxed-in point lies inside the final bounds. -/
theorem relaxBoundsAll_contains (ps : List Point) (r : rectObj) (q : Point)
    (hq : q ∈ ps) :
    (relaxBoundsAll ps r).minx ≤ q.x ∧ q.x ≤ (relaxBoundsAll ps r).maxx ∧
    (relaxBoundsAll ps r).miny ≤ q.y ∧ q.y ≤ (relaxBoundsAll ps r).maxy := by
  induction ps generalizing r with
  | nil => cases hq
  | cons p ps ih =>
      rw [relaxBoundsAll_cons, relaxBounds_eq]
      rcases List.mem_cons.mp hq with rfl | hq2
      · rcases relaxBoundsAll_widens ps ⟨min r.minx q.x, min r.miny q.y,
          max r.maxx q.x, max r.maxy q.y⟩ with ⟨h1, h2, h3, h4⟩
        dsimp only at h1 h2 h3 h4
        exact ⟨h1.trans (min_le_right _ _), (le_max_right _ _).trans h3,
          h2.trans (min_le_right _ _), (le_max_right _ _).trans h4⟩
      · exact ih _ hq2

/-- Each final bound either is the corresponding input bound or is attained
at one of the relaxed-in points. -/
theorem relaxBoundsAll_attained (ps : List Point) (r : rectObj) :
    ((relaxBoundsAll ps r).minx = r.minx ∨
      ∃ q ∈ ps, (relaxBoundsAll ps r).minx = q.x) ∧
    ((relaxBoundsAll ps r).miny = r.miny ∨
      ∃ q ∈ ps, (relaxBoundsAll ps r).miny = q.y) ∧
    ((relaxBoundsAll ps r).maxx = r.maxx ∨
      ∃ q ∈ ps, (relaxBoundsAll ps r).maxx = q.x) ∧
    ((relaxBoundsAll ps r).maxy = r.maxy ∨
      ∃ q ∈ ps, (relaxBoundsAll ps r).maxy = q.y) := by
  induction ps generalizing r with
  | nil => exact ⟨Or.inl rfl, Or.inl rfl, Or.inl rfl, Or.inl rfl⟩
  | cons p ps ih =>
      rw [relaxBoundsAll_cons, relaxBounds_eq]
      rcases ih ⟨min r.minx p.x, min r.miny p.y, max r.maxx p.x,
        max r.maxy p.y⟩ with ⟨h1, h2, h3, h4⟩
      dsimp only at h1 h2 h3 h4
      refine ⟨?_, ?_, ?_, ?_⟩
      · rcases h1 with h | ⟨q, hq, h⟩
        · rcases min_choice r.minx p.x with hm | hm
          · exact Or.inl (h.trans hm)
          · exact Or.inr ⟨p, List.mem_cons_self p ps, h.trans hm⟩
        · exact Or.inr ⟨q, List.mem_cons_of_mem p hq, h⟩
      · rcases h2 with h | ⟨q, hq, h⟩
        · rcases min_choice r.miny p.y with hm | hm
          · exact Or.inl (h.trans hm)
          · exact Or.inr ⟨p, List.mem_cons_self p ps, h.trans hm⟩
        · exact Or.inr ⟨q, List.mem_cons_of_mem p hq, h⟩
      · rcases h3 with h | ⟨q, hq, h⟩
        · rcases max_choice r.maxx p.x with hm | hm
          · exact Or.inl (h.trans hm)
          · exact Or.inr ⟨p, List.mem_cons_self p ps, h.trans hm⟩
        · exact Or.inr ⟨q, List.mem_cons_of_mem p hq, h⟩
      · rcases h4 with h | ⟨q, hq, h⟩
        · rcases max_choice r.maxy p.y with hm | hm
          · exact Or.inl (h.trans hm)
          · exact Or.inr ⟨p, List.mem_cons_self p ps, h.trans hm⟩
        · exact Or.inr ⟨q, List.mem_cons_of_mem p hq, h⟩

/-- `r` is exactly the per-axis minimum/maximum of `pts`: every point lies
inside `r` and all four bounds are attained at some point of `pts`. -/
def boundsExact (pts : List Point) (r : rectObj) : Prop :=
  (∀ p ∈ pts, r.minx ≤ p.x ∧ p.x ≤ r.maxx ∧ r.miny ≤ p.y ∧ p.y ≤ r.maxy) ∧
  (∃ p ∈ pts, p.x = r.minx) ∧ (∃ p ∈ pts, p.x = r.maxx) ∧
  (∃ p ∈ pts, p.y = r.miny) ∧ (∃ p ∈ pts, p.y = r.maxy)

instance (pts : List Point) (r : rectObj) : Decidable (boundsExact pts r) := by
  unfold boundsExact; infer_instance

/-- Initializing from the first point and relaxing with the rest yields the
exact min/max of all the points. -/
theorem boundsExact_relax_init (p : Point) (ps : List Point) :
    boundsExact (p :: ps) (relaxBoundsAll ps (initBounds p)) := by
  have hw := relaxBoundsAll_widens ps (initBounds p)
  have hat := relaxBoundsAll_attained ps (initBounds p)
  refine ⟨?_, ?_, ?_, ?_, ?_⟩
  · intro q hq
    rcases List.mem_cons.mp hq with rfl | hq2
    · exact ⟨hw.1, hw.2.2.1, hw.2.1, hw.2.2.2⟩
    · have := relaxBoundsAll_contains ps (initBounds p) q hq2
      exact ⟨this.1, this.2.1, this.2.2.1, this.2.2.2⟩
  · rcases hat.1 with h | ⟨q, hq, h⟩
    · exact ⟨p, List.mem_cons_self p ps, h.symm⟩
    · exact ⟨q, List.mem_cons_of_mem p hq, h.symm⟩
  · rcases hat.2.2.1 with h | ⟨q, hq, h⟩
    · exact ⟨p, List.mem_cons_self p ps, h.symm⟩
    · exact ⟨q, List.mem_cons_of_mem p hq, h.symm⟩
  · rcases hat.2.1 with h | ⟨q, hq, h⟩
    · exact ⟨p, List.mem_cons_self p ps, h.symm⟩
    · exact ⟨q, List.mem_cons_of_mem p hq, h.symm⟩
  · rcases hat.2.2.2 with h | ⟨q, hq, h⟩
    · exact ⟨p, List.mem_cons_self p ps, h.symm⟩
    · exact ⟨q, List.mem_cons_of_mem p hq, h.symm⟩

/-- Two exact bounding rectangles of permuted point lists coincide. -/
theorem boundsExact_unique {pts pts2 : List Point} {r r2 : rectObj}
    (h : boundsExact pts r) (h2 : boundsExact pts2 r2)
    (hperm : pts2.Perm pts) : r2 = r := by
  obtain ⟨hc, ⟨pmnx, hpmnx, hmnx⟩, ⟨pmxx, hpmxx, hmxx⟩,
    ⟨pmny, hpmny, hmny⟩, ⟨pmxy, hpmxy, hmxy⟩⟩ := h
  obtain ⟨hc2, ⟨qmnx, hqmnx, hqx⟩, ⟨qmxx, hqmxx, hqxx⟩,
    ⟨qmny, hqmny, hqy⟩, ⟨qmxy, hqmxy, hqyy⟩⟩ := h2
  refine rectObj_ext ?_ ?_ ?_ ?_
  · have a1 := (hc _ (hperm.mem_iff.mp hqmnx)).1
    have a2 := (hc2 _ (hperm.mem_iff.mpr hpmnx)).1
    linarith
  · have a1 := (hc _ (hperm.mem_iff.mp hqmny)).2.2.1
    have a2 := (hc2 _ (hperm.mem_iff.mpr hpmny)).2.2.1
    linarith
  · have a1 := (hc _ (hperm.mem_iff.mp hqmxx)).2.1
    have a2 := (hc2 _ (hperm.mem_iff.mpr hpmxx)).2.1
    linarith
  · have a1 := (hc _ (hperm.mem_iff.mp hqmxy)).2.2.2
    have a2 := (hc2 _ (hperm.mem_iff.mpr hpmxy)).2.2.2
    linarith

/-- The line-type seeding step keeps the lines. -/
theorem seedLine_line (s : shapeObj) :
    (if s.type = ShapeType.null then { s with type := ShapeType.line }
     else s).line = s.line := by split <;> rfl

/-- The line-type seeding step keeps the bounds. -/
theorem seedLine_bounds (s : shapeObj) :
    (if s.type = ShapeType.null then { s with type := ShapeType.line }
     else s).bounds = s.bounds := by split <;> rfl

/-- What `ogrGeomLine` does on a linestring of at least 2 points: success,
a new ring appended (so the line list is nonempty), and the bounds seeded
from the first point when the shape had no lines yet, otherwise relaxed from
the existing bounds. -/
theorem geomLine_lineString_struct (ps : List Point) (s : shapeObj)
    (b : Bool) (h2 : ¬ ps.length < 2) :
    (ogrGeomLine (.lineString ps) s b).2 = none ∧
    (ogrGeomLine (.lineString ps) s b).1.line ≠ [] ∧
    (ogrGeomLine (.lineString ps) s b).1.bounds =
      (match s.line, ps with
       | [], p :: rest => relaxBoundsAll rest (initBounds p)
       | _, _ => relaxBoundsAll ps s.bounds) := by
  simp only [ogrGeomLine, h2, if_false]
  refine ⟨trivial, by simp, ?_⟩
  rw [seedLine_line, seedLine_bounds]
  cases s.line <;> cases ps <;> simp_all

/-- The container type-seeding step changes neither the lines nor the
bounds. -/
theorem typeSeed_line (k : ContainerKind) (s : shapeObj) :
    ((if k = .polygon ∧ s.type = .null then { s with type := .polygon }
      else s).line = s.line ∧
     (if k = .polygon ∧ s.type = .null then { s with type := .polygon }
      else s).bounds = s.bounds) := by
  split <;> exact ⟨rfl, rfl⟩

mutual
/-- Bounds invariant of `ogrGeomLine`: on success, starting from a shape
with no lines the bounds are either untouched (nothing visited) or equal to
the fold of the visited points starting from the first one; starting from a
shape that already has lines, every visited point relaxes the existing
bounds and the lines stay nonempty. -/
theorem geomLine_inv (g : OGRGeometry) (s : shapeObj) (b : Bool)
    (hok : (ogrGeomLine g s b).2 = none) :
    ((s.line = [] →
        (visitedLinePoints g = [] ∧ (ogrGeomLine g s b).1.line = [] ∧
          (ogrGeomLine g s b).1.bounds = s.bounds) ∨
        (∃ p ps, visitedLinePoints g = p :: ps ∧
          (ogrGeomLine g s b).1.line ≠ [] ∧
          (ogrGeomLine g s b).1.bounds = relaxBoundsAll ps (initBounds p))) ∧
     (s.line ≠ [] →
        (ogrGeomLine g s b).1.line ≠ [] ∧
        (ogrGeomLine g s b).1.bounds =
          relaxBoundsAll (visitedLinePoints g) s.bounds)) := by
  match g with
  | .point p =>
      exact ⟨fun h0 => Or.inl ⟨rfl, h0, rfl⟩, fun hne => ⟨hne, rfl⟩⟩
  | .multiPoint ps =>
      exact ⟨fun h0 => Or.inl ⟨rfl, h0, rfl⟩, fun hne => ⟨hne, rfl⟩⟩
  | .unsupported nm =>
      simp [ogrGeomLine] at hok
  | .lineString ps =>
      by_cases hlen : ps.length < 2
      · have hred : ogrGeomLine (.lineString ps) s b = (s, none) := by
          simp [ogrGeomLine, hlen]
        have hvis : visitedLinePoints (.lineString ps) = [] := by
          simp [visitedLinePoints, hlen]
        rw [hred, hvis]
        exact ⟨fun h0 => Or.inl ⟨rfl, h0, rfl⟩, fun hne => ⟨hne, rfl⟩⟩
      · have hstr := geomLine_lineString_struct ps s b hlen
        have hvis : visitedLinePoints (.lineString ps) = ps := by
          simp [visitedLinePoints, hlen]
        cases ps with
        | nil => simp at hlen
        | cons p rest =>
            refine ⟨fun h0 => Or.inr ⟨p, rest, hvis, hstr.2.1, ?_⟩,
              fun hne => ⟨hstr.2.1, ?_⟩⟩
            · rw [hstr.2.2, h0]
            · rw [hstr.2.2, hvis]
              cases hsl : s.line with
              | nil => exact absurd hsl hne
              | cons l ls => rfl
  | .container k cs =>
      have hseed := typeSeed_line k s
      have hred : ogrGeomLine (.container k cs) s b =
          ogrGeomLineForest cs
            (if k = .polygon ∧ s.type = .null then { s with type := .polygon }
             else s) b := rfl
      have hvis : visitedLinePoints (.container k cs) =
          visitedLinePointsForest cs := rfl
      rw [hred] at hok
      have hI := geomLineForest_inv cs
        (if k = .polygon ∧ s.type = .null then { s with type := .polygon }
         else s) b hok
      rw [hseed.1, hseed.2] at hI
      rw [hred, hvis]
      exact hI

/-- Forest version of `geomLine_inv`. -/
theorem geomLineForest_inv (cs : GeomForest) (s : shapeObj) (b : Bool)
    (hok : (ogrGeomLineForest cs s b).2 = none) :
    ((s.line = [] →
        (visitedLinePointsForest cs = [] ∧
          (ogrGeomLineForest cs s b).1.line = [] ∧
          (ogrGeomLineForest cs s b).1.bounds = s.bounds) ∨
        (∃ p ps, visitedLinePointsForest cs = p :: ps ∧
          (ogrGeomLineForest cs s b).1.line ≠ [] ∧
          (ogrGeomLineForest cs s b).1.bounds =
            relaxBoundsAll ps (initBounds p))) ∧
     (s.line ≠ [] →
        (ogrGeomLineForest cs s b).1.line ≠ [] ∧
        (ogrGeomLineForest cs s b).1.bounds =
          relaxBoundsAll (visitedLinePointsForest cs) s.bounds)) := by
  match cs with
  | .nil =>
      exact ⟨fun h0 => Or.inl ⟨rfl, h0, rfl⟩, fun hne => ⟨hne, rfl⟩⟩
  | .cons g rest =>
      rcases hg : ogrGeomLine g s b with ⟨t, e⟩
      cases e with
      | some err =>
          rw [show ogrGeomLineForest (.cons g rest) s b = (t, some err) by
            simp [ogrGeomLineForest, hg]] at hok
          simp at hok
      | none =>
          have hred : ogrGeomLineForest (.cons g rest) s b =
              ogrGeomLineForest rest t b := by
            simp [ogrGeomLineForest, hg]
          rw [hred] at hok
          have hI1 := geomLine_inv g s b (by rw [hg])
          rw [hg] at hI1
          dsimp only at hI1
          have hI2 := geomLineForest_inv rest t b hok
          have hvis : visitedLinePointsForest (.cons g rest) =
              visitedLinePoints g ++ visitedLinePointsForest rest := rfl
          rw [hred, hvis]
          constructor
          · intro h0
            rcases hI1.1 h0 with ⟨hv1, ht1, hb1⟩ | ⟨p, ps, hv1, ht1, hb1⟩
            · rcases hI2.1 ht1 with ⟨hv2, ht2, hb2⟩ | ⟨p, ps, hv2, ht2, hb2⟩
              · exact Or.inl ⟨by rw [hv1, hv2]; rfl, ht2, by rw [hb2, hb1]⟩
              · exact Or.inr ⟨p, ps, by rw [hv1, hv2]; rfl, ht2, hb2⟩
            · rcases hI2.2 ht1 with ⟨ht2, hb2⟩
              refine Or.inr ⟨p, ps ++ visitedLinePointsForest rest,
                by rw [hv1]; rfl, ht2, ?_⟩
              rw [hb2, hb1, ← relaxBoundsAll_append]
          · intro hne
            rcases hI1.2 hne with ⟨ht1, hb1⟩
            rcases hI2.2 ht1 with ⟨ht2, hb2⟩
            refine ⟨ht2, ?_⟩
            rw [hb2, hb1, ← relaxBoundsAll_append]
end


/-- Point structure eta. -/
theorem point_eta (p : Point) : (⟨p.x, p.y⟩ : Point) = p := rfl

/-- Folding `ogrPointsAddPoint` over a nonempty line appends the points and
relaxes the bounds. -/
theorem addPoint_fold_nonempty (pts : List Point) (l : lineObj)
    (r : rectObj) (li : Nat) (hne : l.point ≠ []) :
    pts.foldl (fun acc p => ogrPointsAddPoint acc.1 p.x p.y li acc.2)
        (l, r) = (⟨l.point ++ pts⟩, relaxBoundsAll pts r) := by
  induction pts generalizing l r with
  | nil => simp [relaxBoundsAll_nil]
  | cons p ps ih =>
      rw [List.foldl_cons]
      have hstep : ogrPointsAddPoint l p.x p.y li r =
          (⟨l.point ++ [p]⟩, relaxBounds r p) := by
        simp [ogrPointsAddPoint, hne, point_eta]
      rw [hstep, ih ⟨l.point ++ [p]⟩ (relaxBounds r p) (by simp)]
      rw [relaxBoundsAll_cons]
      simp

/-- Folding `ogrPointsAddPoint` into empty line 0 initializes the bounds at
the first point and relaxes them with the rest. -/
theorem addPoint_fold_empty (p : Point) (ps : List Point) (r : rectObj) :
    (p :: ps).foldl (fun acc q => ogrPointsAddPoint acc.1 q.x q.y 0 acc.2)
        (⟨[]⟩, r) = (⟨p :: ps⟩, relaxBoundsAll ps (initBounds p)) := by
  rw [List.foldl_cons]
  have hstep : ogrPointsAddPoint (⟨[]⟩ : lineObj) p.x p.y 0 r =
      (⟨[p]⟩, initBounds p) := by
    simp [ogrPointsAddPoint, point_eta]
  rw [hstep, addPoint_fold_nonempty ps ⟨[p]⟩ (initBounds p) 0 (by simp)]
  simp

/-- A shape in its pre-first-point state: no lines yet, or only the single
empty line that `ogrGeomPoints` allocates before appending points. -/
def UninitShape (s : shapeObj) : Prop :=
  s.line = [] ∨ s.line = [⟨[]⟩]

/-- `ogrGeomPointsLeaf` from an uninitialized shape: the single line becomes
exactly the leaf's points, and the bounds are initialized at the first
point. -/
theorem pointsLeaf_uninit (pts : List Point) (s : shapeObj)
    (hu : UninitShape s) :
    (ogrGeomPointsLeaf pts s).line = [⟨pts⟩] ∧
    (ogrGeomPointsLeaf pts s).bounds =
      (match pts with
       | [] => s.bounds
       | p :: ps => relaxBoundsAll ps (initBounds p)) := by
  rcases hu with h | h
  · cases pts with
    | nil => simp [ogrGeomPointsLeaf, h]
    | cons p ps =>
        simp only [ogrGeomPointsLeaf, h, if_pos]
        simp only [show ([({ point := [] } : lineObj)].length - 1) = 0
            from rfl,
          show ([({ point := [] } : lineObj)].getLast?.getD ⟨[]⟩) =
            (⟨[]⟩ : lineObj) from rfl]
        rw [addPoint_fold_empty]
        simp
  · cases pts with
    | nil => simp [ogrGeomPointsLeaf, h]
    | cons p ps =>
        have hne : s.line ≠ [] := by rw [h]; simp
        simp only [ogrGeomPointsLeaf, if_neg hne]
        simp only [h]
        simp only [show ([({ point := [] } : lineObj)].length - 1) = 0
            from rfl,
          show ([({ point := [] } : lineObj)].getLast?.getD ⟨[]⟩) =
            (⟨[]⟩ : lineObj) from rfl]
        rw [addPoint_fold_empty]
        simp

/-- `ogrGeomPointsLeaf` from a single-nonempty-line shape: the points are
appended to that line and every point relaxes the existing bounds. -/
theorem pointsLeaf_single (pts : List Point) (s : shapeObj) (l : lineObj)
    (hl : s.line = [l]) (hne : l.point ≠ []) :
    (ogrGeomPointsLeaf pts s).line = [⟨l.point ++ pts⟩] ∧
    (ogrGeomPointsLeaf pts s).bounds = relaxBoundsAll pts s.bounds := by
  have hlne : s.line ≠ [] := by rw [hl]; simp
  simp only [ogrGeomPointsLeaf, if_neg hlne]
  simp only [hl]
  simp only [show ∀ l0 : lineObj, ([l0].length - 1) = 0 from fun _ => rfl,
    show ∀ l0 : lineObj, ([l0].getLast?.getD ⟨[]⟩) = l0 from fun _ => rfl]
  rw [addPoint_fold_nonempty pts l s.bounds 0 hne]
  simp


mutual
/-- Bounds invariant of `ogrGeomPoints`: on success, from an uninitialized
shape the bounds are either untouched (no point visited) or initialized at
the first visited point and relaxed with the rest, leaving exactly one
nonempty line; from a single-nonempty-line shape every visited point relaxes
the existing bounds. -/
theorem geomPoints_inv (g : OGRGeometry) (s : shapeObj)
    (hok : (ogrGeomPoints g s).2 = none) :
    ((UninitShape s →
        (visitedPointPoints g = [] ∧ UninitShape (ogrGeomPoints g s).1 ∧
          (ogrGeomPoints g s).1.bounds = s.bounds) ∨
        (∃ p ps, visitedPointPoints g = p :: ps ∧
          (∃ l2, (ogrGeomPoints g s).1.line = [l2] ∧ l2.point ≠ []) ∧
          (ogrGeomPoints g s).1.bounds =
            relaxBoundsAll ps (initBounds p))) ∧
     (∀ l, s.line = [l] → l.point ≠ [] →
        (∃ l2, (ogrGeomPoints g s).1.line = [l2] ∧ l2.point ≠ []) ∧
        (ogrGeomPoints g s).1.bounds =
          relaxBoundsAll (visitedPointPoints g) s.bounds)) := by
  match g with
  | .point p =>
      constructor
      · intro hu
        rcases pointsLeaf_uninit [p] s hu with ⟨hline, hbounds⟩
        exact Or.inr ⟨p, [], rfl, ⟨⟨[p]⟩, hline, by simp⟩, hbounds⟩
      · intro l hl hne
        rcases pointsLeaf_single [p] s l hl hne with ⟨hline, hbounds⟩
        exact ⟨⟨⟨l.point ++ [p]⟩, hline, by simp⟩, hbounds⟩
  | .multiPoint ps =>
      constructor
      · intro hu
        rcases pointsLeaf_uninit ps s hu with ⟨hline, hbounds⟩
        cases ps with
        | nil => exact Or.inl ⟨rfl, Or.inr hline, hbounds⟩
        | cons p rest =>
            exact Or.inr ⟨p, rest, rfl, ⟨⟨p :: rest⟩, hline, by simp⟩,
              hbounds⟩
      · intro l hl hne
        rcases pointsLeaf_single ps s l hl hne with ⟨hline, hbounds⟩
        exact ⟨⟨⟨l.point ++ ps⟩, hline, by simp [hne]⟩, hbounds⟩
  | .lineString ps =>
      constructor
      · intro hu
        rcases pointsLeaf_uninit ps s hu with ⟨hline, hbounds⟩
        cases ps with
        | nil => exact Or.inl ⟨rfl, Or.inr hline, hbounds⟩
        | cons p rest =>
            exact Or.inr ⟨p, rest, rfl, ⟨⟨p :: rest⟩, hline, by simp⟩,
              hbounds⟩
      · intro l hl hne
        rcases pointsLeaf_single ps s l hl hne with ⟨hline, hbounds⟩
        exact ⟨⟨⟨l.point ++ ps⟩, hline, by simp [hne]⟩, hbounds⟩
  | .unsupported nm =>
      simp [ogrGeomPoints] at hok
  | .container k cs =>
      have hred : ogrGeomPoints (.container k cs) s =
          ogrGeomPointsForest cs s := rfl
      have hvis : visitedPointPoints (.container k cs) =
          visitedPointPointsForest cs := rfl
      rw [hred] at hok
      have hI := geomPointsForest_inv cs s hok
      rw [hred, hvis]
      exact hI

/-- Forest version of `geomPoints_inv`. -/
theorem geomPointsForest_inv (cs : GeomForest) (s : shapeObj)
    (hok : (ogrGeomPointsForest cs s).2 = none) :
    ((UninitShape s →
        (visitedPointPointsForest cs = [] ∧
          UninitShape (ogrGeomPointsForest cs s).1 ∧
          (ogrGeomPointsForest cs s).1.bounds = s.bounds) ∨
        (∃ p ps, visitedPointPointsForest cs = p :: ps ∧
          (∃ l2, (ogrGeomPointsForest cs s).1.line = [l2] ∧
            l2.point ≠ []) ∧
          (ogrGeomPointsForest cs s).1.bounds =
            relaxBoundsAll ps (initBounds p))) ∧
     (∀ l, s.line = [l] → l.point ≠ [] →
        (∃ l2, (ogrGeomPointsForest cs s).1.line = [l2] ∧ l2.point ≠ []) ∧
        (ogrGeomPointsForest cs s).1.bounds =
          relaxBoundsAll (visitedPointPointsForest cs) s.bounds)) := by
  match cs with
  | .nil =>
      constructor
      · intro hu
        exact Or.inl ⟨rfl, hu, rfl⟩
      · intro l hl hne
        exact ⟨⟨l, hl, hne⟩, rfl⟩
  | .cons g rest =>
      rcases hg : ogrGeomPoints g s with ⟨t, e⟩
      cases e with
      | some err =>
          rw [show ogrGeomPointsForest (.cons g rest) s = (t, some err) by
            simp [ogrGeomPointsForest, hg]] at hok
          simp at hok
      | none =>
          have hred : ogrGeomPointsForest (.cons g rest) s =
              ogrGeomPointsForest rest t := by
            simp [ogrGeomPointsForest, hg]
          rw [hred] at hok
          have hI1 := geomPoints_inv g s (by rw [hg])
          rw [hg] at hI1
          dsimp only at hI1
          have hI2 := geomPointsForest_inv rest t hok
          have hvis : visitedPointPointsForest (.cons g rest) =
              visitedPointPoints g ++ visitedPointPointsForest rest := rfl
          rw [hred, hvis]
          constructor
          · intro hu
            rcases hI1.1 hu with ⟨hv1, hu1, hb1⟩ |
              ⟨p, ps, hv1, ⟨l1, hl1, hlne1⟩, hb1⟩
            · rcases hI2.1 hu1 with ⟨hv2, hu2, hb2⟩ |
                ⟨p, ps, hv2, hsingle, hb2⟩
              · exact Or.inl ⟨by rw [hv1, hv2]; rfl, hu2, by rw [hb2, hb1]⟩
              · exact Or.inr ⟨p, ps, by rw [hv1, hv2]; rfl, hsingle, hb2⟩
            · rcases hI2.2 l1 hl1 hlne1 with ⟨hsingle, hb2⟩
              refine Or.inr ⟨p, ps ++ visitedPointPointsForest rest,
                by rw [hv1]; rfl, hsingle, ?_⟩
              rw [hb2, hb1, ← relaxBoundsAll_append]
          · intro l hl hne
            rcases hI1.2 l hl hne with ⟨⟨l1, hl1, hlne1⟩, hb1⟩
            rcases hI2.2 l1 hl1 hlne1 with ⟨hsingle, hb2⟩
            refine ⟨hsingle, ?_⟩
            rw [hb2, hb1, ← relaxBoundsAll_append]
end


/-- C5: for every geometry successfully converted from a fresh shape with at
least one visited point, the resulting bounding rectangle is the exact
per-axis minimum and maximum over all visited points (every visited point is
inside it and all four bounds are attained), for both the line/polygon
extraction and the point extraction; and the final rectangle is independent
of the order in which the rings are visited (any geometry visiting a
permutation of the same points produces the same rectangle). -/
theorem bounds_exact_minmax (g g2 : OGRGeometry) (b b2 : Bool) :
    ((ogrGeomLine g freshShape b).2 = none → visitedLinePoints g ≠ [] →
      boundsExact (visitedLinePoints g)
        (ogrGeomLine g freshShape b).1.bounds) ∧
    ((ogrGeomPoints g freshShape).2 = none → visitedPointPoints g ≠ [] →
      boundsExact (visitedPointPoints g)
        (ogrGeomPoints g freshShape).1.bounds) ∧
    ((ogrGeomLine g freshShape b).2 = none →
      (ogrGeomLine g2 freshShape b2).2 = none →
      visitedLinePoints g ≠ [] →
      (visitedLinePoints g2).Perm (visitedLinePoints g) →
      (ogrGeomLine g2 freshShape b2).1.bounds =
        (ogrGeomLine g freshShape b).1.bounds) := by
  have hfresh : freshShape.line = [] := rfl
  have part1 : ∀ (g0 : OGRGeometry) (b0 : Bool),
      (ogrGeomLine g0 freshShape b0).2 = none →
      visitedLinePoints g0 ≠ [] →
      boundsExact (visitedLinePoints g0)
        (ogrGeomLine g0 freshShape b0).1.bounds := by
    intro g0 b0 hok hne
    rcases (geomLine_inv g0 freshShape b0 hok).1 hfresh with
      ⟨hv, _, _⟩ | ⟨p, ps, hv, _, hb⟩
    · exact absurd hv hne
    · rw [hv, hb]; exact boundsExact_relax_init p ps
  refine ⟨part1 g b, ?_, ?_⟩
  · intro hok hne
    rcases (geomPoints_inv g freshShape hok).1 (Or.inl hfresh) with
      ⟨hv, _, _⟩ | ⟨p, ps, hv, _, hb⟩
    · exact absurd hv hne
    · rw [hv, hb]; exact boundsExact_relax_init p ps
  · intro hok1 hok2 hne hperm
    have hne2 : visitedLinePoints g2 ≠ [] := by
      intro hnil
      rw [hnil] at hperm
      exact hne (List.Perm.eq_nil hperm.symm)
    exact boundsExact_unique (part1 g b hok1 hne)
      (part1 g2 b2 hok2 hne2) hperm

/-- A GeometryCollection of two 2-point linestrings. -/
def demoCollection : OGRGeometry :=
  .container .geometryCollection
    (.cons (.lineString [⟨0, 0⟩, ⟨2, 1⟩])
      (.cons (.lineString [⟨1, -1⟩, ⟨0, 3⟩]) .nil))

/-- The same collection with the two linestrings swapped. -/
def demoCollectionSwapped : OGRGeometry :=
  .container .geometryCollection
    (.cons (.lineString [⟨1, -1⟩, ⟨0, 3⟩])
      (.cons (.lineString [⟨0, 0⟩, ⟨2, 1⟩]) .nil))

/-- Witness for `bounds_exact_minmax` at a concrete two-ring collection and
its ring-swapped permutation. -/
theorem bounds_exact_minmax_witness :
    ((ogrGeomLine demoCollection freshShape false).2 = none ∧
      visitedLinePoints demoCollection ≠ [] ∧
      (ogrGeomPoints demoCollection freshShape).2 = none ∧
      visitedPointPoints demoCollection ≠ [] ∧
      (ogrGeomLine demoCollectionSwapped freshShape true).2 = none ∧
      (visitedLinePoints demoCollectionSwapped).Perm
        (visitedLinePoints demoCollection)) ∧
    (boundsExact (visitedLinePoints demoCollection)
        (ogrGeomLine demoCollection freshShape false).1.bounds ∧
      boundsExact (visitedPointPoints demoCollection)
        (ogrGeomPoints demoCollection freshShape).1.bounds ∧
      (ogrGeomLine demoCollectionSwapped freshShape true).1.bounds =
        (ogrGeomLine demoCollection freshShape false).1.bounds) :=
  ⟨⟨by decide, by decide, by decide, by decide, by decide, by decide⟩,
   (bounds_exact_minmax demoCollection demoCollectionSwapped false true).1
     (by decide) (by decide),
   (bounds_exact_minmax demoCollection demoCollectionSwapped false
     true).2.1 (by decide) (by decide),
   (bounds_exact_minmax demoCollection demoCollectionSwapped false
     true).2.2 (by decide) (by decide) (by decide) (by decide)⟩


/-! ## Claim C6 — general-mode style slot ordering -/

/-- The (sort key, discovery index) of every Pen/Brush/Symbol part, in
discovery order, starting at discovery index `i`: the key is the explicit
priority when present and the `INT_MIN` sentinel otherwise
(mapogr.cpp:2894, 2967-2973); Label parts occupy a discovery index but no
style slot. -/
def pbsEntries : List StylePart → Nat → List (Int × Nat)
  | [], _ => []
  | .pen pri :: rest, i => (pri.getD INT_MIN, i) :: pbsEntries rest (i + 1)
  | .brush pri _ :: rest, i =>
      (pri.getD INT_MIN, i) :: pbsEntries rest (i + 1)
  | .symbol pri :: rest, i =>
      (pri.getD INT_MIN, i) :: pbsEntries rest (i + 1)
  | .label :: rest, i => pbsEntries rest (i + 1)

/-- Renumber a pair list with consecutive apparition indices starting at
`k` (the `iSortStruct` counter). -/
def reindexPairs : List (Int × Nat) → Nat → List (Int × Nat)
  | [], _ => []
  | e :: rest, k => (e.1, k) :: reindexPairs rest (k + 1)

theorem reindexPairs_length (l : List (Int × Nat)) (k : Nat) :
    (reindexPairs l k).length = l.length := by
  induction l generalizing k with
  | nil => rfl
  | cons e rest ih => simp [reindexPairs, ih]

theorem reindexPairs_getElem (l : List (Int × Nat)) (k : Nat) (j : Nat)
    (hj : j < l.length) (hjr : j < (reindexPairs l k).length) :
    (reindexPairs l k)[j] = (l[j].1, k + j) := by
  induction l generalizing k j with
  | nil => cases hj
  | cons e rest ih =>
      cases j with
      | zero => simp [reindexPairs]
      | succ j =>
          have hj2 : j < rest.length := by simpa using hj
          have hjr2 : j < (reindexPairs rest (k + 1)).length := by
            rw [reindexPairs_length]; exact hj2
          simp only [reindexPairs, List.getElem_cons_succ]
          rw [ih (k + 1) j hj2 hjr2]
          congr 1
          omega

theorem reindexPairs_map_snd (l : List (Int × Nat)) (k : Nat) :
    (reindexPairs l k).map (·.2) = List.range' k l.length := by
  induction l generalizing k with
  | nil => rfl
  | cons e rest ih => simp [reindexPairs, List.range'_succ, ih]

/-- `writeSlot` at the end of the slot list appends a fresh one-writer
slot. -/
theorem writeSlot_append (slots : List (List Nat)) (i : Nat) :
    writeSlot slots slots.length i = slots ++ [[i]] := by
  have h1 : ensureSlot slots slots.length = slots ++ [[]] := by
    simp [ensureSlot, List.replicate]
  have h2 : ∀ (xs : List (List Nat)) (y v : List Nat),
      (xs ++ [y]).set xs.length v = xs ++ [v] := by
    intro xs
    induction xs with
    | nil => intro y v; rfl
    | cons a xs ih => intro y v; simp [List.set, ih]
  have h3 : (slots ++ [([] : List Nat)]).getD slots.length [] = [] := by
    simp [List.getD_eq_getElem?_getD]
  rw [writeSlot, h1, h3, h2]
  simp

/-- The part loop in general mode: every Pen/Brush/Symbol part appends one
slot holding its discovery index, and one `pasSortStruct` entry with its
key and the running apparition counter. -/
theorem styleLoop_general (lt : LayerType) (parts : List StylePart)
    (i : Nat) (acc : StyleAccum) :
    (msOGRUpdateStyleLoop lt false parts i acc).slots =
      acc.slots ++ (pbsEntries parts i).map (fun e => [e.2]) ∧
    (msOGRUpdateStyleLoop lt false parts i acc).sortStructs =
      acc.sortStructs ++
        reindexPairs (pbsEntries parts i) acc.sortStructs.length := by
  induction parts generalizing i acc with
  | nil => simp [msOGRUpdateStyleLoop, pbsEntries, reindexPairs]
  | cons hd rest ih =>
      cases hd with
      | label =>
          rw [msOGRUpdateStyleLoop]
          simpa [pbsEntries] using ih (i + 1) acc
      | pen pri =>
          simp [msOGRUpdateStyleLoop, pushSortStruct, writeSlot_append, ih,
            pbsEntries, reindexPairs, List.append_assoc]
      | brush pri inv =>
          simp [msOGRUpdateStyleLoop, pushSortStruct, writeSlot_append, ih,
            pbsEntries, reindexPairs, List.append_assoc]
      | symbol pri =>
          simp [msOGRUpdateStyleLoop, pushSortStruct, writeSlot_append, ih,
            pbsEntries, reindexPairs, List.append_assoc]


/-- Strict version of the sort order: what holds between any two distinct
entries of the sorted `pasSortStruct` array. -/
def styleSortLt (a b : Int × Nat) : Prop :=
  a.1 < b.1 ∨ (a.1 = b.1 ∧ a.2 < b.2)

/-- The discovery indices recorded in `pbsEntries` are strictly increasing
and bounded below by the starting index. -/
theorem pbsEntries_snd_mono (parts : List StylePart) (i : Nat) :
    (pbsEntries parts i).Pairwise (fun a b => a.2 < b.2) ∧
    ∀ e ∈ pbsEntries parts i, i ≤ e.2 := by
  induction parts generalizing i with
  | nil => simp [pbsEntries]
  | cons hd rest ih =>
      have hstep : ∀ e ∈ pbsEntries rest (i + 1), i + 1 ≤ e.2 :=
        (ih (i + 1)).2
      cases hd with
      | label =>
          refine ⟨(ih (i + 1)).1, fun e he => ?_⟩
          exact le_trans (Nat.le_succ i) (hstep e he)
      | pen pri =>
          refine ⟨List.Pairwise.cons (fun e he => hstep e he) (ih (i + 1)).1,
            fun e he => ?_⟩
          rcases List.mem_cons.mp he with rfl | he2
          · rfl
          · exact le_trans (Nat.le_succ i) (hstep e he2)
      | brush pri inv =>
          refine ⟨List.Pairwise.cons (fun e he => hstep e he) (ih (i + 1)).1,
            fun e he => ?_⟩
          rcases List.mem_cons.mp he with rfl | he2
          · rfl
          · exact le_trans (Nat.le_succ i) (hstep e he2)
      | symbol pri =>
          refine ⟨List.Pairwise.cons (fun e he => hstep e he) (ih (i + 1)).1,
            fun e he => ?_⟩
          rcases List.mem_cons.mp he with rfl | he2
          · rfl
          · exact le_trans (Nat.le_succ i) (hstep e he2)

/-- In a pairwise-ordered list, an element that cannot follow another
precedes it: the two-element sublist is realized. -/
theorem pairwise_sublist_of_mem {α : Type} {R : α → α → Prop} :
    ∀ {l : List α}, l.Pairwise R → ∀ {x y : α}, x ∈ l → y ∈ l → x ≠ y →
      ¬ R y x → [x, y].Sublist l := by
  intro l hp
  induction l with
  | nil => intro x y hx; cases hx
  | cons a l ih =>
      intro x y hx hy hxy hnR
      rcases List.pairwise_cons.mp hp with ⟨ha, hp2⟩
      rcases List.mem_cons.mp hx with rfl | hx2
      · have hy2 : y ∈ l := by
          rcases List.mem_cons.mp hy with rfl | hy2
          · exact absurd rfl hxy
          · exact hy2
        exact List.Sublist.cons₂ x (List.singleton_sublist.mpr hy2)
      · rcases List.mem_cons.mp hy with rfl | hy2
        · exact absurd (ha x hx2) hnR
        · exact List.Sublist.cons a (ih hp2 hx2 hy2 hxy hnR)


/-- C6: in general (non-legacy) mode, the final slot order is sorted by
(explicit priority, else the `INT_MIN` sentinel; ties broken by apparition
order).  Stated on `pbsEntries` (the (key, discovery index) of each
Pen/Brush/Symbol part): the produced slots are a permutation of the
one-writer discovery slots; a part with a strictly smaller key always
precedes a part with a larger key (its slot pair is a sublist of the
result); two parts with equal keys (including two unprioritized parts,
whose key is the sentinel) retain discovery order; and one Brush with
priority 3 plus one Symbol with priority 1 yield exactly the two slots
[Symbol, Brush]. -/
theorem style_sort_order (lt : LayerType) (parts : List StylePart)
    (hgen : msOGRUpdateStyleCheckPenBrushOnly parts = false) :
    (msOGRUpdateStyle lt parts).Perm
        ((pbsEntries parts 0).map (fun e => [e.2])) ∧
    (∀ e1 ∈ pbsEntries parts 0, ∀ e2 ∈ pbsEntries parts 0,
      (e1.1 < e2.1 →
        [[e1.2], [e2.2]].Sublist (msOGRUpdateStyle lt parts)) ∧
      (e1.1 = e2.1 → e1.2 < e2.2 →
        [[e1.2], [e2.2]].Sublist (msOGRUpdateStyle lt parts))) ∧
    (∀ lt2, msOGRUpdateStyle lt2
        [.brush (some 3) false, .symbol (some 1)] = [[1], [0]]) := by
  have hloop := styleLoop_general lt parts 0 ⟨[], false, []⟩
  have hslots : (msOGRUpdateStyleLoop lt false parts 0 ⟨[], false, []⟩).slots
      = (pbsEntries parts 0).map (fun e => [e.2]) := by
    simpa using hloop.1
  have hsort :
      (msOGRUpdateStyleLoop lt false parts 0 ⟨[], false, []⟩).sortStructs
      = reindexPairs (pbsEntries parts 0) 0 := by
    simpa using hloop.2
  have hres : msOGRUpdateStyle lt parts =
      (if 1 < (reindexPairs (pbsEntries parts 0) 0).length then
        (List.insertionSort styleSortLe
            (reindexPairs (pbsEntries parts 0) 0)).map
          (fun pr =>
            ((pbsEntries parts 0).map (fun e => [e.2])).getD pr.2 [])
       else (pbsEntries parts 0).map (fun e => [e.2])) := by
    simp only [msOGRUpdateStyle, hgen, Bool.false_eq_true, not_false_iff,
      and_true, hslots, hsort]
  have hscen : ∀ lt2, msOGRUpdateStyle lt2
      [.brush (some 3) false, .symbol (some 1)] = [[1], [0]] := by
    intro lt2
    cases lt2 <;> decide
  have hplen : (reindexPairs (pbsEntries parts 0) 0).length =
      (pbsEntries parts 0).length := reindexPairs_length _ _
  by_cases hn : 1 < (reindexPairs (pbsEntries parts 0) 0).length
  case neg =>
    rw [hres, if_neg hn]
    refine ⟨List.Perm.refl _, ?_, hscen⟩
    have hlen1 : (pbsEntries parts 0).length ≤ 1 := by
      rw [hplen] at hn; omega
    intro e1 he1 e2 he2
    rcases hEe : pbsEntries parts 0 with _ | ⟨a, E2⟩
    · rw [hEe] at he1; cases he1
    · rw [hEe] at he1 he2 hlen1
      have hE2 : E2 = [] := by
        cases E2 with
        | nil => rfl
        | cons b E3 => simp at hlen1
      subst hE2
      have h1 : e1 = a := by simpa using he1
      have h2 : e2 = a := by simpa using he2
      subst h1; subst h2
      constructor
      · intro hlt; exact absurd hlt (lt_irrefl _)
      · intro _ hlt; exact absurd hlt (lt_irrefl _)
  case pos =>
    rw [hres, if_pos hn]
    have hperm : (List.insertionSort styleSortLe
        (reindexPairs (pbsEntries parts 0) 0)).Perm
        (reindexPairs (pbsEntries parts 0) 0) :=
      List.perm_insertionSort _ _
    have hmapf : (reindexPairs (pbsEntries parts 0) 0).map
        (fun pr =>
          ((pbsEntries parts 0).map (fun e => [e.2])).getD pr.2 []) =
        (pbsEntries parts 0).map (fun e => [e.2]) := by
      apply List.ext_getElem
      · simp [hplen]
      · intro j h1 h2
        rw [List.getElem_map, List.getElem_map]
        rw [reindexPairs_getElem (pbsEntries parts 0) 0 j
          (by simpa [hplen] using h1) (by simpa using h1)]
        dsimp only
        rw [List.getD_eq_getElem _ _
          (by simpa [hplen] using h1), List.getElem_map]
        simp
    refine ⟨(hperm.map _).trans (by rw [hmapf]), ?_, hscen⟩
    have hsorted : (List.insertionSort styleSortLe
        (reindexPairs (pbsEntries parts 0) 0)).Pairwise styleSortLe :=
      List.sorted_insertionSort _ _
    have hnd : ((reindexPairs (pbsEntries parts 0) 0).map (·.2)).Nodup := by
      rw [reindexPairs_map_snd]
      exact List.nodup_range' _ _
    have hnds : ((List.insertionSort styleSortLe
        (reindexPairs (pbsEntries parts 0) 0)).map (·.2)).Nodup :=
      ((hperm.map (·.2)).nodup_iff).mpr hnd
    have hpne : (List.insertionSort styleSortLe
        (reindexPairs (pbsEntries parts 0) 0)).Pairwise
        (fun a b => a.2 ≠ b.2) := List.pairwise_map.mp hnds
    have hstrict : (List.insertionSort styleSortLe
        (reindexPairs (pbsEntries parts 0) 0)).Pairwise styleSortLt := by
      refine (hsorted.and hpne).imp ?_
      rintro a b ⟨hle, hne⟩
      rcases hle with h | ⟨heq, hle2⟩
      · exact Or.inl h
      · exact Or.inr ⟨heq, lt_of_le_of_ne hle2 hne⟩
    intro e1 he1 e2 he2
    rcases List.getElem_of_mem he1 with ⟨j1, hj1, hg1⟩
    rcases List.getElem_of_mem he2 with ⟨j2, hj2, hg2⟩
    have hb1 : j1 < (reindexPairs (pbsEntries parts 0) 0).length := by
      rwa [hplen]
    have hb2 : j2 < (reindexPairs (pbsEntries parts 0) 0).length := by
      rwa [hplen]
    have hp1get : (reindexPairs (pbsEntries parts 0) 0)[j1] =
        (e1.1, j1) := by
      rw [reindexPairs_getElem (pbsEntries parts 0) 0 j1 hj1 hb1, hg1,
        Nat.zero_add]
    have hp2get : (reindexPairs (pbsEntries parts 0) 0)[j2] =
        (e2.1, j2) := by
      rw [reindexPairs_getElem (pbsEntries parts 0) 0 j2 hj2 hb2, hg2,
        Nat.zero_add]
    have hp1mem : (e1.1, j1) ∈
        List.insertionSort styleSortLe
          (reindexPairs (pbsEntries parts 0) 0) := by
      rw [hperm.mem_iff, ← hp1get]
      exact List.getElem_mem _
    have hp2mem : (e2.1, j2) ∈
        List.insertionSort styleSortLe
          (reindexPairs (pbsEntries parts 0) 0) := by
      rw [hperm.mem_iff, ← hp2get]
      exact List.getElem_mem _
    have hf1 : ((pbsEntries parts 0).map (fun e => [e.2])).getD j1 [] =
        [e1.2] := by
      rw [List.getD_eq_getElem _ _ (by simpa using hj1), List.getElem_map,
        hg1]
    have hf2 : ((pbsEntries parts 0).map (fun e => [e.2])).getD j2 [] =
        [e2.2] := by
      rw [List.getD_eq_getElem _ _ (by simpa using hj2), List.getElem_map,
        hg2]
    constructor
    · intro hkey
      have hne : ((e1.1, j1) : Int × Nat) ≠ (e2.1, j2) := by
        intro hc
        rw [Prod.mk.injEq] at hc
        exact absurd (hc.1 ▸ hkey) (lt_irrefl _)
      have hnR : ¬ styleSortLt (e2.1, j2) (e1.1, j1) := by
        rintro (h | ⟨heq, _⟩)
        · exact absurd (hkey.trans h) (lt_irrefl _)
        · exact absurd (heq ▸ hkey) (lt_irrefl _)
      have hsub := pairwise_sublist_of_mem hstrict hp1mem hp2mem hne hnR
      have := hsub.map
        (fun pr : Int × Nat =>
          ((pbsEntries parts 0).map (fun e => [e.2])).getD pr.2 [])
      simp only [List.map_cons, List.map_nil] at this
      rw [hf1, hf2] at this
      exact this
    · intro hkey hd
      have hmono := (pbsEntries_snd_mono parts 0).1
      have hj12 : j1 < j2 := by
        rcases Nat.lt_trichotomy j1 j2 with h | h | h
        · exact h
        · exfalso
          subst h
          have he : e1 = e2 := by rw [← hg1, ← hg2]
          rw [he] at hd
          exact absurd hd (lt_irrefl _)
        · exfalso
          have := (List.pairwise_iff_getElem.mp hmono) j2 j1 hj2 hj1 h
          rw [hg1, hg2] at this
          omega
      have hne : ((e1.1, j1) : Int × Nat) ≠ (e2.1, j2) := by
        intro hc
        rw [Prod.mk.injEq] at hc
        omega
      have hnR : ¬ styleSortLt (e2.1, j2) (e1.1, j1) := by
        rintro (h | ⟨heq, h2⟩)
        · rw [hkey] at h; exact absurd h (lt_irrefl _)
        · omega
      have hsub := pairwise_sublist_of_mem hstrict hp1mem hp2mem hne hnR
      have := hsub.map
        (fun pr : Int × Nat =>
          ((pbsEntries parts 0).map (fun e => [e.2])).getD pr.2 [])
      simp only [List.map_cons, List.map_nil] at this
      rw [hf1, hf2] at this
      exact this


/-- A general-mode part list: one Symbol (priority 5), one unprioritized
Pen, a Label, one Brush (priority 1). -/
def demoParts : List StylePart :=
  [.symbol (some 5), .pen none, .label, .brush (some 1) false]

/-- Witness for `style_sort_order` at `demoParts` on a Point-type layer. -/
theorem style_sort_order_witness :
    (msOGRUpdateStyleCheckPenBrushOnly demoParts = false ∧
      ((-(2 ^ 31) : Int), 1) ∈ pbsEntries demoParts 0 ∧
      ((1 : Int), 3) ∈ pbsEntries demoParts 0 ∧
      ((-(2 ^ 31) : Int) : Int) < 1) ∧
    ((msOGRUpdateStyle .point demoParts).Perm
        ((pbsEntries demoParts 0).map (fun e => [e.2])) ∧
      [[1], [3]].Sublist (msOGRUpdateStyle .point demoParts)) :=
  ⟨⟨by decide, by decide, by decide, by decide⟩,
   (style_sort_order .point demoParts (by decide)).1,
   (((style_sort_order .point demoParts (by decide)).2.1
       (-(2 ^ 31), 1) (by decide) (1, 3) (by decide)).1 (by decide))⟩


end MapOGR
